import Mathlib

/-!
Verification of the retention engine of TotallyNotRobots/apply-retention-policy.

The engine exists in two variants in the repository:
* the calendar-aligned one in src/internal/config/config.go
  (Policy.Apply, groupFilesByTimePeriod, groupFilesByPeriod and the five
  package-level grouper closures), and
* the duration-based one in src/internal/retention/policy.go.

Go's time.Time is modelled as a structured UTC civil datetime (the catalog
parser only ever builds UTC instants with time.Date).  Instants are compared
through their absolute nanosecond count since 0001-01-01T00:00:00 UTC, which
is exactly how Go orders times internally; Unix() subtracts the constant
offset between that epoch and 1970.  All calendar arithmetic (leap years,
month lengths, ISO weeks) follows the proleptic Gregorian calendar that Go's
time package implements.
-/

namespace Retention

/-- Leap-year test of the proleptic Gregorian calendar, as in Go's time
package: divisible by 4, and not by 100 unless also by 400. -/
def isLeap (y : Nat) : Bool :=
  y % 4 == 0 && (y % 100 != 0 || y % 400 == 0)

/-- Number of leap years among years 1..n of the proleptic Gregorian
calendar, in closed form. -/
def leapCount (n : Nat) : Nat := n / 4 - n / 100 + n / 400

/-- Day number (days since January 1 of year 1) of January 1 of year y. -/
def yearStart (y : Nat) : Nat := 365 * (y - 1) + leapCount (y - 1)

/-- Length in days of month m of year y. -/
def daysInMonth (y m : Nat) : Nat :=
  if m = 2 then (if isLeap y then 29 else 28)
  else if m = 4 ∨ m = 6 ∨ m = 9 ∨ m = 11 then 30
  else 31

/-- Days of year y that precede month m (months are 1-based). -/
def daysBeforeMonth (y : Nat) : Nat → Nat
  | 0 => 0
  | 1 => 0
  | m + 2 => daysBeforeMonth y (m + 1) + daysInMonth y (m + 1)

/-- Day number (days since January 1 of year 1) of a calendar date. -/
def dayNumber (y m d : Nat) : Nat := yearStart y + daysBeforeMonth y m + (d - 1)

/-- A UTC instant with calendar fields: the model of Go's time.Time as held
in backup-file records. -/
structure Time where
  year : Nat
  month : Nat
  day : Nat
  hour : Nat
  minute : Nat
  second : Nat
  nano : Nat
deriving DecidableEq

/-- The calendar fields denote a real instant; Go's time.Time maintains this
invariant by normalizing in time.Date. -/
def Time.Valid (t : Time) : Prop :=
  1 ≤ t.year ∧ 1 ≤ t.month ∧ t.month ≤ 12 ∧ 1 ≤ t.day ∧
    t.day ≤ daysInMonth t.year t.month ∧ t.hour ≤ 23 ∧ t.minute ≤ 59 ∧
    t.second ≤ 59 ∧ t.nano ≤ 999999999

instance (t : Time) : Decidable t.Valid := by
  unfold Time.Valid
  infer_instance

/-- Day number of the instant's calendar date. -/
def Time.days (t : Time) : Nat := dayNumber t.year t.month t.day

/-- Seconds since 0001-01-01T00:00:00 UTC (Go's internal absolute time). -/
def Time.abs (t : Time) : Nat :=
  86400 * t.days + 3600 * t.hour + 60 * t.minute + t.second

/-- Nanoseconds since 0001-01-01T00:00:00 UTC.  Go's Time.Compare is the
order on this quantity. -/
def Time.absNano (t : Time) : Nat := 1000000000 * t.abs + t.nano

/-- Seconds from 0001-01-01 to the Unix epoch 1970-01-01 (719162 days);
Go's Unix() subtracts it from absolute seconds. -/
def unixOffset : Nat := 62135596800

/-- Model of Go time.Time.Unix() for UTC instants. -/
def Time.unix (t : Time) : Int := (t.abs : Int) - (unixOffset : Int)

/-- Model of file.Info from src (a backup file record: path, parsed
timestamp, size). -/
structure Info where
  Path : String
  Timestamp : Time
  Size : Int
deriving DecidableEq

/-- hourGrouper from src/internal/config/config.go: Unix seconds of
time.Date(Y, M, D, H, 0, 0, 0, loc), the start of the record's hour. -/
def hourGrouper (f : Info) : Int :=
  ((86400 * f.Timestamp.days + 3600 * f.Timestamp.hour : Nat) : Int) -
    (unixOffset : Int)

/-- dayGrouper: Unix seconds of the start of the record's day. -/
def dayGrouper (f : Info) : Int :=
  ((86400 * f.Timestamp.days : Nat) : Int) - (unixOffset : Int)

/-- monthGrouper: Unix seconds of the first day of the record's month. -/
def monthGrouper (f : Info) : Int :=
  ((86400 * dayNumber f.Timestamp.year f.Timestamp.month 1 : Nat) : Int) -
    (unixOffset : Int)

/-- yearGrouper: Unix seconds of January 1 of the record's year. -/
def yearGrouper (f : Info) : Int :=
  ((86400 * dayNumber f.Timestamp.year 1 1 : Nat) : Int) - (unixOffset : Int)

/-- Day number of the Thursday of the Monday-based week containing day d.
Day 0 (0001-01-01) is a Monday, so d % 7 is the Monday-based weekday
index, matching Go's absWeekday. -/
def thursdayOf (d : Nat) : Nat := d - d % 7 + 3

/-- Calendar year containing day number z (the inverse of yearStart),
computed from the 400-year Gregorian cycle of 146097 days with at most one
correction step. -/
def yearOfDay (z : Nat) : Nat :=
  if z < yearStart (400 * z / 146097 + 2) then 400 * z / 146097 + 1
  else 400 * z / 146097 + 2

/-- Model of Go time.Time.ISOWeek(): the ISO 8601 year and week index,
computed per Go's implementation as the calendar year and zero-based
year-day of the Thursday of the record's week. -/
def isoWeek (t : Time) : Nat × Nat :=
  let thu := thursdayOf t.days
  let y := yearOfDay thu
  (y, (thu - yearStart y) / 7 + 1)

/-- weekMultiplier combines year and week numbers into a single integer
(source constant). -/
def weekMultiplier : Nat := 100

/-- weekGrouper: ISO year times 100 plus ISO week. -/
def weekGrouper (f : Info) : Int :=
  (((isoWeek f.Timestamp).1 * weekMultiplier + (isoWeek f.Timestamp).2 : Nat) : Int)

/-- Insertion step of the descending sort: place f before the first record
whose timestamp is not later than f's. -/
def insertDesc (f : Info) : List Info → List Info
  | [] => [f]
  | x :: l =>
    if x.Timestamp.absNano ≤ f.Timestamp.absNano then f :: x :: l
    else x :: insertDesc f l

/-- Sort by timestamp descending: the source's slices.SortFunc with the
comparator b.Timestamp.Compare(a.Timestamp).  Go's pdqsort is unstable, so
the order of records with equal timestamps is unspecified there; this
insertion sort fixes one such order. -/
def sortDesc (files : List Info) : List Info :=
  files.foldr insertDesc []

/-- One step of the grouping pass: prepend record f to the run it belongs
to (the group of the record right after it, when the keys agree) or open a
new group.  (The empty-group arm is unreachable: the pass never produces an
empty group.) -/
def addToRuns (g : Info → Int) (f : Info) : List (List Info) → List (List Info)
  | [] => [[f]]
  | G :: gs =>
    match G with
    | [] => [f] :: gs
    | x :: _ => if g f == g x then (f :: G) :: gs else [f] :: G :: gs

/-- The grouping loop of groupFilesByTimePeriod, shared by both variants.
The source walks the sorted list comparing each record's key with the key
of the current group's first record; since key equality is transitive, the
groups are exactly the maximal runs of adjacent records with equal keys,
which this right fold computes in one pass. -/
def groupRuns (g : Info → Int) : List Info → List (List Info)
  | [] => []
  | f :: fs => addToRuns g f (groupRuns g fs)

/-- groupFilesByTimePeriod from src/internal/config/config.go: clone the
input, sort it descending, group adjacent records with equal keys.  (The
clone means the caller's list is untouched; lists here are values, and the
in-place behavior of the other variant is modelled separately below.) -/
def groupFilesByTimePeriod (g : Info → Int) (files : List Info) :
    List (List Info) :=
  groupRuns g (sortDesc files)

/-- groupResult: the three-way partition a tier produces. -/
structure groupResult where
  selected : List Info
  toDelete : List Info
  unselected : List Info
deriving DecidableEq

/-- The selection loop of groupFilesByPeriod.  selCount is the length of the
selected list accumulated so far; the loop compares it against keepCount
before each group.  (Groups produced by the grouping pass are never empty;
the source indexes group[0] unconditionally, so the empty-group arm is
unreachable and merely skips.) -/
def selectGroups (keepCount : Int) (selCount : Nat) :
    List (List Info) → groupResult
  | [] => ⟨[], [], []⟩
  | group :: gs =>
    if (selCount : Int) = keepCount then
      let r := selectGroups keepCount selCount gs
      ⟨r.selected, r.toDelete, group ++ r.unselected⟩
    else
      match group with
      | [] => selectGroups keepCount selCount gs
      | f :: rest =>
        let r := selectGroups keepCount (selCount + 1) gs
        ⟨f :: r.selected, rest ++ r.toDelete, r.unselected⟩

/-- groupFilesByPeriod from src/internal/config/config.go. -/
def groupFilesByPeriod (g : Info → Int) (keepCount : Int)
    (files : List Info) : groupResult :=
  selectGroups keepCount 0 (groupFilesByTimePeriod g files)

/-- RetentionPolicy: the five keep-counts (Go int). -/
structure RetentionPolicy where
  Hourly : Int
  Daily : Int
  Weekly : Int
  Monthly : Int
  Yearly : Int
deriving DecidableEq

/-- The documented input domain: all keep-counts non-negative (validated by
the config loader, not by the engine). -/
def RetentionPolicy.NonNeg (p : RetentionPolicy) : Prop :=
  0 ≤ p.Hourly ∧ 0 ≤ p.Daily ∧ 0 ≤ p.Weekly ∧ 0 ≤ p.Monthly ∧ 0 ≤ p.Yearly

instance (p : RetentionPolicy) : Decidable p.NonNeg := by
  unfold RetentionPolicy.NonNeg
  infer_instance

/-- The five tier results of the calendar-aligned Policy.Apply, plus its
accumulated toDelete list. -/
structure ApplyResult where
  hourlyFiles : groupResult
  dailyFiles : groupResult
  weeklyFiles : groupResult
  monthlyFiles : groupResult
  yearlyFiles : groupResult
  toDelete : List Info
deriving DecidableEq

/-- The hourlyFiles binding of Policy.Apply (calendar-aligned variant). -/
def hourlyRes (p : RetentionPolicy) (files : List Info) : groupResult :=
  groupFilesByPeriod hourGrouper p.Hourly files

/-- The dailyFiles binding: consumes the hourly tier's unselected output. -/
def dailyRes (p : RetentionPolicy) (files : List Info) : groupResult :=
  groupFilesByPeriod dayGrouper p.Daily (hourlyRes p files).unselected

/-- The weeklyFiles binding. -/
def weeklyRes (p : RetentionPolicy) (files : List Info) : groupResult :=
  groupFilesByPeriod weekGrouper p.Weekly (dailyRes p files).unselected

/-- The monthlyFiles binding. -/
def monthlyRes (p : RetentionPolicy) (files : List Info) : groupResult :=
  groupFilesByPeriod monthGrouper p.Monthly (weeklyRes p files).unselected

/-- The yearlyFiles binding. -/
def yearlyRes (p : RetentionPolicy) (files : List Info) : groupResult :=
  groupFilesByPeriod yearGrouper p.Yearly (monthlyRes p files).unselected

/-- The five-tier cascade of Policy.Apply (calendar-aligned variant,
src/internal/config/config.go): each tier consumes the previous tier's
unselected output, and the yearly tier's unselected output is appended to
the final toDelete list. -/
def applyDetail (p : RetentionPolicy) (files : List Info) : ApplyResult :=
  ⟨hourlyRes p files, dailyRes p files, weeklyRes p files, monthlyRes p files,
    yearlyRes p files,
    (hourlyRes p files).toDelete ++ (dailyRes p files).toDelete ++
      (weeklyRes p files).toDelete ++ (monthlyRes p files).toDelete ++
      (yearlyRes p files).toDelete ++ (yearlyRes p files).unselected⟩

/-- Policy.Apply (calendar-aligned): the list of files to delete together
with the error channel, which the source always returns as nil. -/
def Apply (p : RetentionPolicy) (files : List Info) :
    List Info × Option String :=
  if files.isEmpty then ([], none)
  else ((applyDetail p files).toDelete, none)

/-- All records the calendar-aligned Apply retains: the five tiers' selected
lists. -/
def retainedAll (p : RetentionPolicy) (files : List Info) : List Info :=
  let r := applyDetail p files
  r.hourlyFiles.selected ++ r.dailyFiles.selected ++ r.weeklyFiles.selected ++
    r.monthlyFiles.selected ++ r.yearlyFiles.selected

/-- The five tier groupers in cascade order. -/
def tierGroupers : List (Info → Int) :=
  [hourGrouper, dayGrouper, weekGrouper, monthGrouper, yearGrouper]

/-- The tier results of a run in cascade order. -/
def stageResults (r : ApplyResult) : List groupResult :=
  [r.hourlyFiles, r.dailyFiles, r.weeklyFiles, r.monthlyFiles, r.yearlyFiles]

/-- The candidate input of each tier: the input list, then each tier's
unselected output. -/
def stageInputs (p : RetentionPolicy) (files : List Info) : List (List Info) :=
  let r := applyDetail p files
  [files, r.hourlyFiles.unselected, r.dailyFiles.unselected,
    r.weeklyFiles.unselected, r.monthlyFiles.unselected]

/-- The keep-counts in cascade order. -/
def stageKeeps (p : RetentionPolicy) : List Int :=
  [p.Hourly, p.Daily, p.Weekly, p.Monthly, p.Yearly]

/-- Bucket key of the duration-based variant in
src/internal/retention/policy.go: elapsed time since now divided by the
period length in nanoseconds.  Go's Duration division truncates toward
zero. -/
def durKey (now : Time) (period : Int) (f : Info) : Int :=
  Int.tdiv ((now.absNano : Int) - (f.Timestamp.absNano : Int)) period

/-- groupFilesByPeriod of src/internal/retention/policy.go: the same sort,
group and select steps with a duration bucket key.  The second component
models the caller-visible contents of the files argument after the call:
this variant calls slices.SortFunc on the caller's slice without cloning,
so the backing array ends up sorted descending. -/
def groupFilesByPeriodDur (now : Time) (period : Int) (keepCount : Int)
    (files : List Info) : groupResult × List Info :=
  (selectGroups keepCount 0 (groupRuns (durKey now period) (sortDesc files)),
    sortDesc files)

/-- Nanoseconds in the fixed periods the duration-based Apply passes to its
tiers: time.Hour, 24h, 7*24h, 30*24h, 365*24h. -/
def hourNs : Int := 3600 * 1000000000

/-- 24 hours in nanoseconds. -/
def dayNs : Int := 24 * hourNs

/-- 7 days in nanoseconds. -/
def weekNs : Int := 7 * dayNs

/-- 30 days in nanoseconds. -/
def monthNs : Int := 30 * dayNs

/-- 365 days in nanoseconds. -/
def yearNs : Int := 365 * dayNs

/-- Policy.Apply of src/internal/retention/policy.go (duration-based
variant). -/
def ApplyDur (p : RetentionPolicy) (files : List Info) (now : Time) :
    List Info × Option String :=
  if files.isEmpty then ([], none)
  else
    let hourly := groupFilesByPeriodDur now hourNs p.Hourly files
    let daily := groupFilesByPeriodDur now dayNs p.Daily (hourly.1).unselected
    let weekly := groupFilesByPeriodDur now weekNs p.Weekly (daily.1).unselected
    let monthly :=
      groupFilesByPeriodDur now monthNs p.Monthly (weekly.1).unselected
    let yearly :=
      groupFilesByPeriodDur now yearNs p.Yearly (monthly.1).unselected
    ((hourly.1).toDelete ++ (daily.1).toDelete ++ (weekly.1).toDelete ++
      (monthly.1).toDelete ++ (yearly.1).toDelete ++ (yearly.1).unselected,
      none)

/-- Contents of the caller's files slice after the duration-based Apply: the
first tier sorts the caller's backing array in place (later tiers operate on
freshly allocated unselected slices), and the empty-input guard returns
before any sort. -/
def ApplyDurBufferAfter (files : List Info) : List Info :=
  if files.isEmpty then files else sortDesc files

/-- Contents of the caller's files argument after the calendar-aligned
variant runs: groupFilesByTimePeriod clones the slice before sorting, so
the argument is left exactly as it was. -/
def bufferAfterCal (files : List Info) : List Info := files

/-- The ISO week key as a function of the day number alone. -/
def weekKey (d : Nat) : Nat :=
  yearOfDay (thursdayOf d) * weekMultiplier +
    ((thursdayOf d - yearStart (yearOfDay (thursdayOf d))) / 7 + 1)

/-- The grouper of tier i. -/
def tierGrouper : Fin 5 → (Info → Int)
  | 0 => hourGrouper
  | 1 => dayGrouper
  | 2 => weekGrouper
  | 3 => monthGrouper
  | 4 => yearGrouper

/-- The keep-count of tier i. -/
def stageKeep (p : RetentionPolicy) : Fin 5 → Int
  | 0 => p.Hourly
  | 1 => p.Daily
  | 2 => p.Weekly
  | 3 => p.Monthly
  | 4 => p.Yearly

/-- The candidate input of tier i: the input list for the hourly tier, then
each tier's unselected output. -/
def stageInput (p : RetentionPolicy) (files : List Info) : Fin 5 → List Info
  | 0 => files
  | 1 => (applyDetail p files).hourlyFiles.unselected
  | 2 => (applyDetail p files).dailyFiles.unselected
  | 3 => (applyDetail p files).weeklyFiles.unselected
  | 4 => (applyDetail p files).monthlyFiles.unselected

/-- The result of tier i. -/
def stageResult (p : RetentionPolicy) (files : List Info) (i : Fin 5) :
    groupResult :=
  groupFilesByPeriod (tierGrouper i) (stageKeep p i) (stageInput p files i)

/-- Key of a group: the key of its first record (groups are never empty). -/
def keyOf (g : Info → Int) : List Info → Int
  | [] => 0
  | f :: _ => g f

/-! ## Calendar arithmetic -/

theorem yearStart_mono {y1 y2 : Nat} (h : y1 ≤ y2) :
    yearStart y1 ≤ yearStart y2 := by
  unfold yearStart leapCount
  omega

theorem yearStart_succ_le (y : Nat) : yearStart (y + 1) ≤ yearStart y + 366 := by
  unfold yearStart leapCount
  omega

theorem isLeap_iff (y : Nat) :
    isLeap y = true ↔ (y % 4 = 0 ∧ (y % 100 ≠ 0 ∨ y % 400 = 0)) := by
  unfold isLeap
  simp [Bool.and_eq_true, beq_iff_eq, Bool.or_eq_true, bne_iff_ne]

theorem yearStart_succ (y : Nat) (hy : 1 ≤ y) :
    yearStart (y + 1) = yearStart y + (if isLeap y then 366 else 365) := by
  by_cases hL : isLeap y = true
  · rw [if_pos hL]
    rw [isLeap_iff] at hL
    unfold yearStart leapCount
    omega
  · rw [if_neg hL]
    rw [isLeap_iff] at hL
    unfold yearStart leapCount
    rcases Nat.eq_zero_or_pos (y % 4) with h4 | h4
    · rcases Nat.eq_zero_or_pos (y % 100) with h100 | h100
      · rcases Nat.eq_zero_or_pos (y % 400) with h400 | h400
        · exact absurd ⟨h4, Or.inr h400⟩ hL
        · omega
      · exact absurd ⟨h4, Or.inl (by omega)⟩ hL
    · omega

theorem daysInMonth_pos (y m : Nat) : 1 ≤ daysInMonth y m := by
  unfold daysInMonth
  split
  · split <;> omega
  · split <;> omega

theorem dayOfYear_lt (y m d : Nat) (h1 : 1 ≤ m) (h2 : m ≤ 12) (h3 : 1 ≤ d)
    (h4 : d ≤ daysInMonth y m) :
    daysBeforeMonth y m + (d - 1) < (if isLeap y then 366 else 365) := by
  cases hL : isLeap y <;>
    (interval_cases m <;> simp [daysBeforeMonth, daysInMonth, hL] at h4 ⊢ <;>
      omega)

theorem dayNumber_lt_yearStart_succ (y m d : Nat) (h1 : 1 ≤ m) (h2 : m ≤ 12)
    (h3 : 1 ≤ d) (h4 : d ≤ daysInMonth y m) (hy : 1 ≤ y) :
    dayNumber y m d < yearStart (y + 1) := by
  have hd := dayOfYear_lt y m d h1 h2 h3 h4
  have hs := yearStart_succ y hy
  unfold dayNumber
  cases hL : isLeap y <;> simp [hL] at hd hs <;> omega

theorem yearStart_le_dayNumber (y m d : Nat) :
    yearStart y ≤ dayNumber y m d := by
  unfold dayNumber
  omega

theorem daysBeforeMonth_succ (y m : Nat) (h : 1 ≤ m) :
    daysBeforeMonth y (m + 1) = daysBeforeMonth y m + daysInMonth y m := by
  match m, h with
  | Nat.succ k, _ => rfl

theorem daysBeforeMonth_mono (y : Nat) {m1 m2 : Nat} (h1 : 1 ≤ m1)
    (h : m1 ≤ m2) : daysBeforeMonth y m1 ≤ daysBeforeMonth y m2 := by
  induction m2 with
  | zero => omega
  | succ k ih =>
    rcases Nat.lt_or_ge m1 (k + 1) with hlt | hge
    · have hk : 1 ≤ k := by omega
      have h2 := ih (by omega)
      rw [daysBeforeMonth_succ y k hk]
      omega
    · have : m1 = k + 1 := by omega
      subst this
      exact Nat.le_refl _

theorem dayNumber_strict_mono {y1 m1 d1 y2 m2 d2 : Nat}
    (hm1 : 1 ≤ m1) (hm1' : m1 ≤ 12) (hd1 : 1 ≤ d1)
    (hd1' : d1 ≤ daysInMonth y1 m1) (hy1 : 1 ≤ y1)
    (hm2 : 1 ≤ m2)
    (h : y1 < y2 ∨ (y1 = y2 ∧ (m1 < m2 ∨ (m1 = m2 ∧ d1 < d2)))) :
    dayNumber y1 m1 d1 < dayNumber y2 m2 d2 := by
  rcases h with hy | ⟨rfl, hm | ⟨rfl, hd⟩⟩
  · calc dayNumber y1 m1 d1 < yearStart (y1 + 1) :=
          dayNumber_lt_yearStart_succ y1 m1 d1 hm1 hm1' hd1 hd1' hy1
      _ ≤ yearStart y2 := yearStart_mono hy
      _ ≤ dayNumber y2 m2 d2 := yearStart_le_dayNumber y2 m2 d2
  · have hstep := daysBeforeMonth_succ y1 m1 hm1
    have hmono := daysBeforeMonth_mono y1 (show 1 ≤ m1 + 1 by omega)
      (show m1 + 1 ≤ m2 by omega)
    unfold dayNumber
    omega
  · unfold dayNumber
    omega

theorem abs_le_days_le {t1 t2 : Time} (v1 : t1.Valid) (v2 : t2.Valid)
    (h : t1.abs ≤ t2.abs) : t1.days ≤ t2.days := by
  obtain ⟨_, _, _, _, _, hh1, hm1, hs1, _⟩ := v1
  obtain ⟨_, _, _, _, _, hh2, hm2, hs2, _⟩ := v2
  unfold Time.abs at h
  omega

theorem absNano_le_abs_le {t1 t2 : Time} (v1 : t1.Valid) (v2 : t2.Valid)
    (h : t1.absNano ≤ t2.absNano) : t1.abs ≤ t2.abs := by
  obtain ⟨_, _, _, _, _, _, _, _, hn1⟩ := v1
  obtain ⟨_, _, _, _, _, _, _, _, hn2⟩ := v2
  unfold Time.absNano at h
  omega

/-! ## Monotonicity of the five tier groupers -/

/-- A grouper is monotone in the chronological order on valid instants: this
is what makes records with equal keys adjacent after the descending sort. -/
def MonoGrouper (g : Info → Int) : Prop :=
  ∀ x y : Info, x.Timestamp.Valid → y.Timestamp.Valid →
    x.Timestamp.absNano ≤ y.Timestamp.absNano → g x ≤ g y

theorem hourGrouper_mono : MonoGrouper hourGrouper := by
  intro x y vx vy h
  have habs := absNano_le_abs_le vx vy h
  obtain ⟨_, _, _, _, _, hxh, hxm, hxs, _⟩ := vx
  obtain ⟨_, _, _, _, _, hyh, hym, hys, _⟩ := vy
  unfold Time.abs at habs
  unfold hourGrouper
  omega

theorem dayGrouper_mono : MonoGrouper dayGrouper := by
  intro x y vx vy h
  have habs := absNano_le_abs_le vx vy h
  obtain ⟨_, _, _, _, _, hxh, hxm, hxs, _⟩ := vx
  obtain ⟨_, _, _, _, _, hyh, hym, hys, _⟩ := vy
  unfold Time.abs at habs
  unfold dayGrouper
  omega

theorem days_lex_year_month {x y : Time} (vx : x.Valid) (vy : y.Valid)
    (h : x.days ≤ y.days) :
    x.year < y.year ∨ (x.year = y.year ∧ x.month ≤ y.month) := by
  obtain ⟨hy1, hm1, hm1', hd1, hd1', _⟩ := vx
  obtain ⟨hy2, hm2, hm2', hd2, hd2', _⟩ := vy
  by_contra hc
  push_neg at hc
  have hlex : y.year < x.year ∨
      (y.year = x.year ∧ (y.month < x.month ∨ (y.month = x.month ∧ y.day < x.day))) := by
    rcases Nat.lt_or_ge y.year x.year with hlt | hge
    · exact Or.inl hlt
    · have heq : x.year = y.year := by omega
      exact Or.inr ⟨heq.symm, Or.inl (hc.2 heq)⟩
  have := dayNumber_strict_mono hm2 hm2' hd2 hd2' hy2 hm1 hlex
  unfold Time.days at h
  omega

theorem monthGrouper_mono : MonoGrouper monthGrouper := by
  intro x y vx vy h
  have habs := absNano_le_abs_le vx vy h
  have hdays := abs_le_days_le vx vy habs
  have hlex := days_lex_year_month vx vy hdays
  obtain ⟨hy1, hm1, hm1', hd1, hd1', _⟩ := vx
  obtain ⟨hy2, hm2, hm2', hd2, hd2', _⟩ := vy
  have hkey : dayNumber x.Timestamp.year x.Timestamp.month 1 ≤
      dayNumber y.Timestamp.year y.Timestamp.month 1 := by
    rcases hlex with hlt | ⟨heq, hle⟩
    · have h1 : dayNumber x.Timestamp.year x.Timestamp.month 1 <
          yearStart (x.Timestamp.year + 1) :=
        dayNumber_lt_yearStart_succ _ _ _ hm1 hm1' (Nat.le_refl 1)
          (daysInMonth_pos _ _) hy1
      have h2 := yearStart_mono (show x.Timestamp.year + 1 ≤ y.Timestamp.year by omega)
      have h3 := yearStart_le_dayNumber y.Timestamp.year y.Timestamp.month 1
      omega
    · have hmono := daysBeforeMonth_mono x.Timestamp.year hm1 hle
      unfold dayNumber
      rw [heq] at hmono ⊢
      omega
  unfold monthGrouper
  omega

theorem yearGrouper_mono : MonoGrouper yearGrouper := by
  intro x y vx vy h
  have habs := absNano_le_abs_le vx vy h
  have hdays := abs_le_days_le vx vy habs
  have hlex := days_lex_year_month vx vy hdays
  have hkey : dayNumber x.Timestamp.year 1 1 ≤ dayNumber y.Timestamp.year 1 1 := by
    have hy : x.Timestamp.year ≤ y.Timestamp.year := by
      rcases hlex with hlt | ⟨heq, _⟩
      · omega
      · omega
    have := yearStart_mono hy
    unfold dayNumber daysBeforeMonth
    omega
  unfold yearGrouper
  omega

theorem yearOfDay_le (z : Nat) : yearStart (yearOfDay z) ≤ z := by
  unfold yearOfDay
  split
  · unfold yearStart leapCount
    omega
  · next h => omega

theorem lt_yearStart_yearOfDay_succ (z : Nat) :
    z < yearStart (yearOfDay z + 1) := by
  unfold yearOfDay
  split
  · next h => exact h
  · unfold yearStart leapCount
    omega

theorem yearOfDay_pos (z : Nat) : 1 ≤ yearOfDay z := by
  unfold yearOfDay
  split <;> omega

theorem yearOfDay_mono {z1 z2 : Nat} (h : z1 ≤ z2) :
    yearOfDay z1 ≤ yearOfDay z2 := by
  by_contra hc
  push_neg at hc
  have h1 := yearOfDay_le z1
  have h2 := lt_yearStart_yearOfDay_succ z2
  have h3 := yearStart_mono (show yearOfDay z2 + 1 ≤ yearOfDay z1 by omega)
  omega

theorem thursdayOf_mono {d1 d2 : Nat} (h : d1 ≤ d2) :
    thursdayOf d1 ≤ thursdayOf d2 := by
  unfold thursdayOf
  omega

theorem weekKey_mono {d1 d2 : Nat} (h : d1 ≤ d2) : weekKey d1 ≤ weekKey d2 := by
  have hthu := thursdayOf_mono h
  have hy := yearOfDay_mono hthu
  unfold weekKey weekMultiplier
  rcases Nat.eq_or_lt_of_le hy with heq | hlt
  · rw [heq]
    have h2 : thursdayOf d1 - yearStart (yearOfDay (thursdayOf d2)) ≤
        thursdayOf d2 - yearStart (yearOfDay (thursdayOf d2)) :=
      Nat.sub_le_sub_right hthu _
    have h3 : (thursdayOf d1 - yearStart (yearOfDay (thursdayOf d2))) / 7 ≤ (thursdayOf d2 - yearStart (yearOfDay (thursdayOf d2))) / 7 := Nat.div_le_div_right h2
    omega
  · have hb1 := yearOfDay_le (thursdayOf d1)
    have hb2 := lt_yearStart_yearOfDay_succ (thursdayOf d1)
    have hb3 := yearStart_succ_le (yearOfDay (thursdayOf d1))
    have hyday : thursdayOf d1 - yearStart (yearOfDay (thursdayOf d1)) ≤ 365 := by
      omega
    have hw1 : (thursdayOf d1 - yearStart (yearOfDay (thursdayOf d1))) / 7 + 1 ≤ 53 := by
      omega
    omega

theorem weekGrouper_eq (f : Info) :
    weekGrouper f = ((weekKey f.Timestamp.days : Nat) : Int) := rfl

theorem weekGrouper_mono : MonoGrouper weekGrouper := by
  intro x y vx vy h
  have habs := absNano_le_abs_le vx vy h
  have hdays := abs_le_days_le vx vy habs
  rw [weekGrouper_eq, weekGrouper_eq]
  exact_mod_cast weekKey_mono hdays

theorem tierGrouper_mono (i : Fin 5) : MonoGrouper (tierGrouper i) := by
  fin_cases i
  · exact hourGrouper_mono
  · exact dayGrouper_mono
  · exact weekGrouper_mono
  · exact monthGrouper_mono
  · exact yearGrouper_mono

theorem mem_tierGroupers_mono {g : Info → Int} (hg : g ∈ tierGroupers) :
    MonoGrouper g := by
  unfold tierGroupers at hg
  simp only [List.mem_cons, List.not_mem_nil, or_false] at hg
  rcases hg with rfl | rfl | rfl | rfl | rfl
  · exact hourGrouper_mono
  · exact dayGrouper_mono
  · exact weekGrouper_mono
  · exact monthGrouper_mono
  · exact yearGrouper_mono

theorem MonoGrouper.nano_lt_of_key_lt {g : Info → Int} (hm : MonoGrouper g)
    {x y : Info} (vx : x.Timestamp.Valid) (vy : y.Timestamp.Valid)
    (h : g x < g y) : x.Timestamp.absNano < y.Timestamp.absNano := by
  by_contra hc
  push_neg at hc
  have := hm y x vy vx hc
  omega

/-! ## The descending sort -/

theorem insertDesc_perm (f : Info) (l : List Info) :
    (insertDesc f l).Perm (f :: l) := by
  induction l with
  | nil => exact List.Perm.refl _
  | cons x l ih =>
    unfold insertDesc
    split
    · exact List.Perm.refl _
    · exact (List.Perm.cons x ih).trans (List.Perm.swap f x l)

theorem sortDesc_perm (l : List Info) : (sortDesc l).Perm l := by
  induction l with
  | nil => exact List.Perm.refl _
  | cons f l ih =>
    show (insertDesc f (l.foldr insertDesc [])).Perm (f :: l)
    exact (insertDesc_perm f _).trans (List.Perm.cons f ih)

theorem insertDesc_sorted (f : Info) (l : List Info)
    (h : List.Pairwise (fun a b => b.Timestamp.absNano ≤ a.Timestamp.absNano) l) :
    List.Pairwise (fun a b => b.Timestamp.absNano ≤ a.Timestamp.absNano)
      (insertDesc f l) := by
  induction l with
  | nil => simp [insertDesc]
  | cons x l ih =>
    unfold insertDesc
    split
    · next hle =>
      refine List.pairwise_cons.mpr ⟨?_, h⟩
      intro b hb
      rcases List.mem_cons.mp hb with rfl | hb'
      · exact hle
      · have := (List.pairwise_cons.mp h).1 b hb'
        omega
    · next hgt =>
      refine List.pairwise_cons.mpr ⟨?_, ih (List.pairwise_cons.mp h).2⟩
      intro b hb
      have hb' := (insertDesc_perm f l).mem_iff.mp hb
      rcases List.mem_cons.mp hb' with rfl | hbl
      · omega
      · exact (List.pairwise_cons.mp h).1 b hbl

theorem sortDesc_sorted (l : List Info) :
    List.Pairwise (fun a b => b.Timestamp.absNano ≤ a.Timestamp.absNano)
      (sortDesc l) := by
  induction l with
  | nil => exact List.Pairwise.nil
  | cons f l ih =>
    show List.Pairwise _ (insertDesc f (l.foldr insertDesc []))
    exact insertDesc_sorted f _ ih

theorem mem_sortDesc {l : List Info} {x : Info} :
    x ∈ sortDesc l ↔ x ∈ l :=
  (sortDesc_perm l).mem_iff

/-! ## Structure of the grouping pass -/

theorem groupRuns_cons_eq (g : Info → Int) (f : Info) (fs : List Info) :
    groupRuns g (f :: fs) = addToRuns g f (groupRuns g fs) := rfl

theorem keyOf_cons (g : Info → Int) (x : Info) (t : List Info) :
    keyOf g (x :: t) = g x := rfl

theorem groupRuns_flatten (g : Info → Int) (l : List Info) :
    (groupRuns g l).flatten = l := by
  induction l with
  | nil => rfl
  | cons f fs ih =>
    cases hgs : groupRuns g fs with
    | nil =>
      rw [hgs] at ih
      rw [groupRuns_cons_eq, hgs]
      simp only [List.flatten_nil] at ih
      simp [addToRuns, ← ih]
    | cons G0 gs =>
      rw [hgs] at ih
      cases G0 with
      | nil =>
        rw [groupRuns_cons_eq, hgs]
        simp only [addToRuns, List.flatten_cons, List.nil_append] at ih ⊢
        simp [ih]
      | cons x t =>
        rw [groupRuns_cons_eq, hgs]
        simp only [addToRuns]
        split
        · simp only [List.flatten_cons, List.cons_append] at ih ⊢
          rw [ih]
        · simp only [List.flatten_cons, List.cons_append, List.nil_append] at ih ⊢
          rw [ih]

theorem groupRuns_ne_nil (g : Info → Int) (l : List Info) :
    ∀ G ∈ groupRuns g l, G ≠ [] := by
  induction l with
  | nil => simp [groupRuns]
  | cons f fs ih =>
    rw [groupRuns_cons_eq]
    cases hgs : groupRuns g fs with
    | nil => simp [addToRuns]
    | cons G0 gs =>
      rw [hgs] at ih
      cases G0 with
      | nil =>
        simp only [addToRuns]
        intro X hX
        rcases List.mem_cons.mp hX with rfl | hX'
        · simp
        · exact ih X (List.mem_cons_of_mem _ hX')
      | cons x t =>
        simp only [addToRuns]
        split
        · intro X hX
          rcases List.mem_cons.mp hX with rfl | hX'
          · simp
          · exact ih X (List.mem_cons_of_mem _ hX')
        · intro X hX
          rcases List.mem_cons.mp hX with rfl | hX'
          · simp
          · exact ih X hX'

theorem groupRuns_sublist (g : Info → Int) (l : List Info) :
    ∀ G ∈ groupRuns g l, G.Sublist l := by
  induction l with
  | nil => simp [groupRuns]
  | cons f fs ih =>
    rw [groupRuns_cons_eq]
    cases hgs : groupRuns g fs with
    | nil =>
      simp only [addToRuns]
      intro X hX
      rcases List.mem_cons.mp hX with rfl | hX'
      · exact List.cons_sublist_cons.mpr (List.nil_sublist fs)
      · simp at hX'
    | cons G0 gs =>
      rw [hgs] at ih
      cases G0 with
      | nil =>
        simp only [addToRuns]
        intro X hX
        rcases List.mem_cons.mp hX with rfl | hX'
        · exact List.cons_sublist_cons.mpr (List.nil_sublist fs)
        · exact (ih X (List.mem_cons_of_mem _ hX')).trans
            (List.sublist_cons_self f fs)
      | cons x t =>
        simp only [addToRuns]
        split
        · intro X hX
          rcases List.mem_cons.mp hX with rfl | hX'
          · exact List.cons_sublist_cons.mpr (ih (x :: t) (List.mem_cons_self _ _))
          · exact (ih X (List.mem_cons_of_mem _ hX')).trans
              (List.sublist_cons_self f fs)
        · intro X hX
          rcases List.mem_cons.mp hX with rfl | hX'
          · exact List.cons_sublist_cons.mpr (List.nil_sublist fs)
          · exact (ih X hX').trans (List.sublist_cons_self f fs)

theorem groupRuns_key_eq (g : Info → Int) (l : List Info) :
    ∀ G ∈ groupRuns g l, ∀ x ∈ G, g x = keyOf g G := by
  induction l with
  | nil => simp [groupRuns]
  | cons f fs ih =>
    rw [groupRuns_cons_eq]
    cases hgs : groupRuns g fs with
    | nil =>
      simp only [addToRuns]
      intro X hX x hx
      rcases List.mem_cons.mp hX with rfl | hX'
      · rcases List.mem_cons.mp hx with rfl | hx'
        · rfl
        · simp at hx'
      · simp at hX'
    | cons G0 gs =>
      rw [hgs] at ih
      cases G0 with
      | nil =>
        simp only [addToRuns]
        intro X hX x hx
        rcases List.mem_cons.mp hX with rfl | hX'
        · rcases List.mem_cons.mp hx with rfl | hx'
          · rfl
          · simp at hx'
        · exact ih X (List.mem_cons_of_mem _ hX') x hx
      | cons x0 t0 =>
        simp only [addToRuns]
        split
        · next hif =>
          have hkey : g f = g x0 := beq_iff_eq.mp hif
          intro X hX x hx
          rcases List.mem_cons.mp hX with rfl | hX'
          · show g x = g f
            rcases List.mem_cons.mp hx with rfl | hx'
            · rfl
            · have := ih (x0 :: t0) (List.mem_cons_self _ _) x hx'
              rw [keyOf_cons] at this
              omega
          · exact ih X (List.mem_cons_of_mem _ hX') x hx
        · intro X hX x hx
          rcases List.mem_cons.mp hX with rfl | hX'
          · rcases List.mem_cons.mp hx with rfl | hx'
            · rfl
            · simp at hx'
          · exact ih X hX' x hx

theorem groupRuns_keys_lt (g : Info → Int) (l : List Info)
    (hsort : List.Pairwise (fun a b => b.Timestamp.absNano ≤ a.Timestamp.absNano) l)
    (hmono : ∀ x ∈ l, ∀ y ∈ l,
      x.Timestamp.absNano ≤ y.Timestamp.absNano → g x ≤ g y) :
    List.Pairwise (fun G1 G2 => keyOf g G2 < keyOf g G1) (groupRuns g l) := by
  induction l with
  | nil => exact List.Pairwise.nil
  | cons f fs ih =>
    have hsort2 := (List.pairwise_cons.mp hsort).2
    have hmono2 : ∀ x ∈ fs, ∀ y ∈ fs,
        x.Timestamp.absNano ≤ y.Timestamp.absNano → g x ≤ g y :=
      fun x hx y hy h =>
        hmono x (List.mem_cons_of_mem f hx) y (List.mem_cons_of_mem f hy) h
    have IH := ih hsort2 hmono2
    have hkeyle : ∀ X ∈ groupRuns g fs, keyOf g X ≤ g f := by
      intro X hX
      obtain ⟨x, t, rfl⟩ : ∃ x t, X = x :: t := by
        have := groupRuns_ne_nil g fs X hX
        cases X with
        | nil => exact absurd rfl this
        | cons u v => exact ⟨u, v, rfl⟩
      have hxfs : x ∈ fs :=
        (groupRuns_sublist g fs _ hX).subset (List.mem_cons_self x t)
      have hle : x.Timestamp.absNano ≤ f.Timestamp.absNano :=
        (List.pairwise_cons.mp hsort).1 x hxfs
      exact hmono x (List.mem_cons_of_mem f hxfs) f (List.mem_cons_self f fs) hle
    rw [groupRuns_cons_eq]
    cases hgs : groupRuns g fs with
    | nil => simp [addToRuns]
    | cons G0 gs =>
      rw [hgs] at IH hkeyle
      cases G0 with
      | nil =>
        exact absurd rfl
          (groupRuns_ne_nil g fs [] (by rw [hgs]; exact List.mem_cons_self _ _))
      | cons x0 t0 =>
        have hk0 : g x0 ≤ g f := by
          have := hkeyle (x0 :: t0) (List.mem_cons_self _ _)
          simpa [keyOf_cons] using this
        simp only [addToRuns]
        split
        · next hif =>
          have hkey : g f = g x0 := beq_iff_eq.mp hif
          refine List.pairwise_cons.mpr ⟨?_, (List.pairwise_cons.mp IH).2⟩
          intro X hX
          have := (List.pairwise_cons.mp IH).1 X hX
          show keyOf g X < g f
          rw [keyOf_cons] at this
          omega
        · next hif =>
          have hkey : ¬ g f = g x0 := by
            simpa using hif
          refine List.pairwise_cons.mpr ⟨?_, IH⟩
          intro X hX
          show keyOf g X < g f
          rcases List.mem_cons.mp hX with rfl | hX'
          · rw [keyOf_cons]
            omega
          · have h1 := (List.pairwise_cons.mp IH).1 X hX'
            rw [keyOf_cons] at h1
            omega

theorem groupRuns_first (g : Info → Int) (x : Info) (l : List Info) :
    ∃ t gs, groupRuns g (x :: l) = (x :: t) :: gs := by
  rw [groupRuns_cons_eq]
  cases groupRuns g l with
  | nil => exact ⟨[], [], rfl⟩
  | cons G gs =>
    cases G with
    | nil => exact ⟨[], gs, rfl⟩
    | cons y t =>
      by_cases h : g x == g y
      · simp only [addToRuns]
        rw [if_pos h]
        exact ⟨y :: t, gs, rfl⟩
      · simp only [addToRuns]
        rw [if_neg h]
        exact ⟨[], (y :: t) :: gs, rfl⟩

theorem groupRuns_cons_ne (g : Info → Int) (f x : Info) (l : List Info)
    (h : ¬ g f = g x) :
    groupRuns g (f :: x :: l) = [f] :: groupRuns g (x :: l) := by
  obtain ⟨t, gs, heq⟩ := groupRuns_first g x l
  rw [groupRuns_cons_eq, heq]
  simp only [addToRuns]
  rw [if_neg (by simpa using h)]

/-! ## Structure of the selection loop -/

instance : Inhabited Info := ⟨⟨"", ⟨1, 1, 1, 0, 0, 0, 0⟩, 0⟩⟩

theorem selectGroups_capped (k : Int) (c : Nat) (hc : (c : Int) = k)
    (gs : List (List Info)) : selectGroups k c gs = ⟨[], [], gs.flatten⟩ := by
  induction gs with
  | nil => rfl
  | cons G gs ih => simp [selectGroups, hc, ih]

theorem selectGroups_struct (k : Int) (gs : List (List Info)) (c : Nat)
    (hne : ∀ G ∈ gs, G ≠ []) :
    ∃ a b : List (List Info), gs = a ++ b ∧
      (selectGroups k c gs).selected = a.map List.headI ∧
      (selectGroups k c gs).toDelete = (a.map List.tail).flatten ∧
      (selectGroups k c gs).unselected = b.flatten ∧
      (b ≠ [] → (c : Int) + a.length = k) ∧
      ((c : Int) ≤ k → (c : Int) + a.length ≤ k) := by
  induction gs generalizing c with
  | nil =>
    refine ⟨[], [], by simp, ?_, ?_, ?_, by simp, by simp⟩ <;> rfl
  | cons G gs ih =>
    by_cases hc : (c : Int) = k
    · refine ⟨[], G :: gs, rfl, ?_, ?_, ?_, fun _ => by simpa using hc, ?_⟩
      · rw [selectGroups_capped k c hc]
        rfl
      · rw [selectGroups_capped k c hc]
        rfl
      · rw [selectGroups_capped k c hc]
      · intro _
        simpa using hc.le
    · obtain ⟨f, rest, rfl⟩ : ∃ f rest, G = f :: rest := by
        cases G with
        | nil => exact absurd rfl (hne [] (List.mem_cons_self _ _))
        | cons a b => exact ⟨a, b, rfl⟩
      obtain ⟨a', b', hab, hsel, htd, huns, hcap, hbound⟩ :=
        ih (c + 1) (fun G hG => hne G (List.mem_cons_of_mem _ hG))
      have hstep : selectGroups k c ((f :: rest) :: gs) =
          ⟨f :: (selectGroups k (c + 1) gs).selected,
            rest ++ (selectGroups k (c + 1) gs).toDelete,
            (selectGroups k (c + 1) gs).unselected⟩ := by
        simp [selectGroups, hc]
      refine ⟨(f :: rest) :: a', b', by rw [hab]; rfl, ?_, ?_, ?_, ?_, ?_⟩
      · rw [hstep, hsel]
        rfl
      · rw [hstep, htd]
        rfl
      · rw [hstep, huns]
      · intro hb
        have := hcap hb
        simp only [List.length_cons]
        push_cast at this ⊢
        omega
      · intro hck
        have hck1 : (c : Int) + 1 ≤ k := by omega
        have := hbound (by push_cast; omega)
        simp only [List.length_cons]
        push_cast at this ⊢
        omega

theorem heads_tails_perm (a : List (List Info)) (hne : ∀ G ∈ a, G ≠ []) :
    (a.map List.headI ++ (a.map List.tail).flatten).Perm a.flatten := by
  induction a with
  | nil => simp
  | cons G a' ih =>
    obtain ⟨x, t, rfl⟩ : ∃ x t, G = x :: t := by
      cases G with
      | nil => exact absurd rfl (hne [] (List.mem_cons_self _ _))
      | cons u v => exact ⟨u, v, rfl⟩
    simp only [List.map_cons, List.flatten_cons, List.cons_append,
      List.headI_cons, List.tail_cons]
    refine List.Perm.cons x ?_
    have step1 : List.Perm (a'.map List.headI ++ (t ++ (a'.map List.tail).flatten))
        ((a'.map List.headI ++ t) ++ (a'.map List.tail).flatten) := by
      rw [List.append_assoc]
    have step2 : List.Perm ((a'.map List.headI ++ t) ++ (a'.map List.tail).flatten)
        ((t ++ a'.map List.headI) ++ (a'.map List.tail).flatten) :=
      List.Perm.append_right _ List.perm_append_comm
    have step3 : List.Perm ((t ++ a'.map List.headI) ++ (a'.map List.tail).flatten)
        (t ++ (a'.map List.headI ++ (a'.map List.tail).flatten)) := by
      rw [List.append_assoc]
    have step4 : List.Perm (t ++ (a'.map List.headI ++ (a'.map List.tail).flatten))
        (t ++ a'.flatten) :=
      List.Perm.append_left t
        (ih (fun G hG => hne G (List.mem_cons_of_mem _ hG)))
    exact ((step1.trans step2).trans step3).trans step4

theorem headI_mem {l : List Info} (h : l ≠ []) : l.headI ∈ l := by
  cases l with
  | nil => exact absurd rfl h
  | cons a t => exact List.mem_cons_self a t

/-! ## Facts about one tier (groupFilesByTimePeriod and groupFilesByPeriod) -/

theorem gfbtp_ne_nil (g : Info → Int) (files : List Info) :
    ∀ G ∈ groupFilesByTimePeriod g files, G ≠ [] :=
  groupRuns_ne_nil g (sortDesc files)

theorem gfbtp_flatten (g : Info → Int) (files : List Info) :
    (groupFilesByTimePeriod g files).flatten = sortDesc files :=
  groupRuns_flatten g (sortDesc files)

theorem gfbtp_flatten_perm (g : Info → Int) (files : List Info) :
    (groupFilesByTimePeriod g files).flatten.Perm files := by
  rw [gfbtp_flatten]
  exact sortDesc_perm files

theorem gfbtp_key_eq (g : Info → Int) (files : List Info) :
    ∀ G ∈ groupFilesByTimePeriod g files, ∀ x ∈ G, g x = keyOf g G :=
  groupRuns_key_eq g (sortDesc files)

theorem gfbtp_group_sorted (g : Info → Int) (files : List Info) :
    ∀ G ∈ groupFilesByTimePeriod g files,
      List.Pairwise (fun a b => b.Timestamp.absNano ≤ a.Timestamp.absNano) G :=
  fun G hG =>
    (sortDesc_sorted files).sublist (groupRuns_sublist g (sortDesc files) G hG)

theorem gfbtp_mem_files {g : Info → Int} {files : List Info} {G : List Info}
    (hG : G ∈ groupFilesByTimePeriod g files) {x : Info} (hx : x ∈ G) :
    x ∈ files :=
  mem_sortDesc.mp ((groupRuns_sublist g (sortDesc files) G hG).subset hx)

theorem gfbtp_keys_lt (g : Info → Int) (files : List Info)
    (hm : MonoGrouper g) (hv : ∀ f ∈ files, f.Timestamp.Valid) :
    List.Pairwise (fun G1 G2 => keyOf g G2 < keyOf g G1)
      (groupFilesByTimePeriod g files) :=
  groupRuns_keys_lt g (sortDesc files) (sortDesc_sorted files)
    (fun x hx y hy h =>
      hm x y (hv x (mem_sortDesc.mp hx)) (hv y (mem_sortDesc.mp hy)) h)

theorem pairwise_key_inj {g : Info → Int} {gs : List (List Info)}
    (hp : List.Pairwise (fun X Y => keyOf g Y < keyOf g X) gs) :
    ∀ X ∈ gs, ∀ Y ∈ gs, keyOf g X = keyOf g Y → X = Y := by
  induction gs with
  | nil => simp
  | cons Z gs ih =>
    intro X hX Y hY hkey
    rcases List.mem_cons.mp hX with rfl | hX' <;>
      rcases List.mem_cons.mp hY with rfl | hY'
    · rfl
    · have := (List.pairwise_cons.mp hp).1 Y hY'
      omega
    · have := (List.pairwise_cons.mp hp).1 X hX'
      omega
    · exact ih (List.pairwise_cons.mp hp).2 X hX' Y hY' hkey

theorem gfp_struct (g : Info → Int) (k : Int) (files : List Info) :
    ∃ a b : List (List Info), groupFilesByTimePeriod g files = a ++ b ∧
      (groupFilesByPeriod g k files).selected = a.map List.headI ∧
      (groupFilesByPeriod g k files).toDelete = (a.map List.tail).flatten ∧
      (groupFilesByPeriod g k files).unselected = b.flatten ∧
      (b ≠ [] → (a.length : Int) = k) ∧
      (0 ≤ k → (a.length : Int) ≤ k) := by
  obtain ⟨a, b, hab, hsel, htd, huns, hcap, hbound⟩ :=
    selectGroups_struct k (groupFilesByTimePeriod g files) 0
      (gfbtp_ne_nil g files)
  exact ⟨a, b, hab, hsel, htd, huns,
    fun hb => by simpa using hcap hb, fun hk => by simpa using hbound (by simpa using hk)⟩

theorem gfp_perm (g : Info → Int) (k : Int) (files : List Info) :
    ((groupFilesByPeriod g k files).selected ++
      (groupFilesByPeriod g k files).toDelete ++
      (groupFilesByPeriod g k files).unselected).Perm files := by
  obtain ⟨a, b, hab, hsel, htd, huns, -, -⟩ := gfp_struct g k files
  have hnea : ∀ G ∈ a, G ≠ [] := by
    intro G hG
    exact gfbtp_ne_nil g files G (by rw [hab]; exact List.mem_append_left b hG)
  have heq : (groupFilesByPeriod g k files).selected ++
      (groupFilesByPeriod g k files).toDelete ++
      (groupFilesByPeriod g k files).unselected =
      (a.map List.headI ++ (a.map List.tail).flatten) ++ b.flatten := by
    rw [hsel, htd, huns]
  rw [heq]
  have step1 : List.Perm ((a.map List.headI ++ (a.map List.tail).flatten) ++ b.flatten)
      (a.flatten ++ b.flatten) :=
    List.Perm.append_right _ (heads_tails_perm a hnea)
  have heq2 : a.flatten ++ b.flatten = (groupFilesByTimePeriod g files).flatten := by
    rw [hab, List.flatten_append]
  rw [heq2] at step1
  exact step1.trans (gfbtp_flatten_perm g files)

theorem gfp_sel_subset (g : Info → Int) (k : Int) (files : List Info) :
    ∀ x ∈ (groupFilesByPeriod g k files).selected, x ∈ files := by
  intro x hx
  exact (gfp_perm g k files).subset
    (List.mem_append_left _ (List.mem_append_left _ hx))

theorem gfp_td_subset (g : Info → Int) (k : Int) (files : List Info) :
    ∀ x ∈ (groupFilesByPeriod g k files).toDelete, x ∈ files := by
  intro x hx
  exact (gfp_perm g k files).subset
    (List.mem_append_left _ (List.mem_append_right _ hx))

theorem gfp_uns_subset (g : Info → Int) (k : Int) (files : List Info) :
    ∀ x ∈ (groupFilesByPeriod g k files).unselected, x ∈ files := by
  intro x hx
  exact (gfp_perm g k files).subset (List.mem_append_right _ hx)

theorem gfp_unsel_key_lt_sel (g : Info → Int) (k : Int) (files : List Info)
    (hm : MonoGrouper g) (hv : ∀ f ∈ files, f.Timestamp.Valid) :
    ∀ s ∈ (groupFilesByPeriod g k files).selected,
      ∀ u ∈ (groupFilesByPeriod g k files).unselected, g u < g s := by
  obtain ⟨a, b, hab, hsel, htd, huns, -, -⟩ := gfp_struct g k files
  intro s hs u hu
  rw [hsel] at hs
  rw [huns] at hu
  obtain ⟨Ga, hGa, rfl⟩ := List.mem_map.mp hs
  obtain ⟨Gb, hGb, hu'⟩ := List.mem_flatten.mp hu
  have hGa' : Ga ∈ groupFilesByTimePeriod g files := by
    rw [hab]
    exact List.mem_append_left b hGa
  have hGb' : Gb ∈ groupFilesByTimePeriod g files := by
    rw [hab]
    exact List.mem_append_right a hGb
  have hnea : Ga ≠ [] := gfbtp_ne_nil g files Ga hGa'
  have hheads : Ga.headI ∈ Ga := headI_mem hnea
  have hks : g Ga.headI = keyOf g Ga := gfbtp_key_eq g files Ga hGa' _ hheads
  have hku : g u = keyOf g Gb := gfbtp_key_eq g files Gb hGb' u hu'
  have hpw := gfbtp_keys_lt g files hm hv
  rw [hab] at hpw
  have := (List.pairwise_append.mp hpw).2.2 Ga hGa Gb hGb
  omega

theorem gfp_sel_not_unsel (g : Info → Int) (k : Int) (files : List Info)
    (hm : MonoGrouper g) (hv : ∀ f ∈ files, f.Timestamp.Valid) :
    ∀ x ∈ (groupFilesByPeriod g k files).selected,
      x ∉ (groupFilesByPeriod g k files).unselected := by
  intro x hxs hxu
  have := gfp_unsel_key_lt_sel g k files hm hv x hxs x hxu
  omega

theorem gfp_under_cap (g : Info → Int) (k : Int) (files : List Info)
    (h : (((groupFilesByPeriod g k files).selected.length : Int)) < k) :
    (groupFilesByPeriod g k files).unselected = [] := by
  obtain ⟨a, b, hab, hsel, htd, huns, hcap, -⟩ := gfp_struct g k files
  rw [hsel] at h
  simp only [List.length_map] at h
  cases hb : b with
  | nil =>
    rw [huns, hb]
    rfl
  | cons B bs =>
    have := hcap (by rw [hb]; simp)
    omega

theorem gfp_sel_len_le (g : Info → Int) (k : Int) (files : List Info)
    (hk : 0 ≤ k) :
    (((groupFilesByPeriod g k files).selected.length : Int)) ≤ k := by
  obtain ⟨a, b, hab, hsel, -, -, -, hbound⟩ := gfp_struct g k files
  rw [hsel]
  simp only [List.length_map]
  exact hbound hk

theorem gfp_sel_keys_lt (g : Info → Int) (k : Int) (files : List Info)
    (hm : MonoGrouper g) (hv : ∀ f ∈ files, f.Timestamp.Valid) :
    List.Pairwise (fun s1 s2 => g s2 < g s1)
      (groupFilesByPeriod g k files).selected := by
  obtain ⟨a, b, hab, hsel, -, -, -, -⟩ := gfp_struct g k files
  rw [hsel, List.pairwise_map]
  have hpw := gfbtp_keys_lt g files hm hv
  rw [hab] at hpw
  have hpa := (List.pairwise_append.mp hpw).1
  refine List.Pairwise.imp_of_mem ?_ hpa
  intro X Y hX hY hrel
  have hX' : X ∈ groupFilesByTimePeriod g files := by
    rw [hab]
    exact List.mem_append_left b hX
  have hY' : Y ∈ groupFilesByTimePeriod g files := by
    rw [hab]
    exact List.mem_append_left b hY
  have hXk := gfbtp_key_eq g files X hX' _ (headI_mem (gfbtp_ne_nil g files X hX'))
  have hYk := gfbtp_key_eq g files Y hY' _ (headI_mem (gfbtp_ne_nil g files Y hY'))
  omega

theorem gfbtp_head_max (g : Info → Int) (files : List Info) :
    ∀ G ∈ groupFilesByTimePeriod g files, ∀ f t, G = f :: t →
      ∀ x ∈ G, x.Timestamp.absNano ≤ f.Timestamp.absNano := by
  intro G hG f t hGft x hx
  have hsorted := gfbtp_group_sorted g files G hG
  rw [hGft] at hsorted hx
  rcases List.mem_cons.mp hx with rfl | hx'
  · exact Nat.le_refl _
  · exact (List.pairwise_cons.mp hsorted).1 x hx'

theorem gfp_sel_is_head (g : Info → Int) (k : Int) (files : List Info)
    (hm : MonoGrouper g) (hv : ∀ f ∈ files, f.Timestamp.Valid) :
    ∀ G ∈ groupFilesByTimePeriod g files, ∀ f t, G = f :: t →
      f ∈ (groupFilesByPeriod g k files).selected →
      (∀ x ∈ t, x ∈ (groupFilesByPeriod g k files).toDelete) := by
  obtain ⟨a, b, hab, hsel, htd, huns, -, -⟩ := gfp_struct g k files
  intro G hG f t hGft hf
  rw [hsel] at hf
  obtain ⟨Ga, hGa, hfeq⟩ := List.mem_map.mp hf
  have hGa' : Ga ∈ groupFilesByTimePeriod g files := by
    rw [hab]
    exact List.mem_append_left b hGa
  have hGane : Ga ≠ [] := gfbtp_ne_nil g files Ga hGa'
  have hkGa : keyOf g Ga = g f := by
    have := gfbtp_key_eq g files Ga hGa' _ (headI_mem hGane)
    rw [hfeq] at this
    omega
  have hkG : keyOf g G = g f := by
    rw [hGft]
    rfl
  have hGG : G = Ga :=
    pairwise_key_inj (gfbtp_keys_lt g files hm hv) G hG Ga hGa' (by omega)
  intro x hx
  rw [htd]
  refine List.mem_flatten.mpr ⟨Ga.tail, List.mem_map_of_mem List.tail hGa, ?_⟩
  rw [← hGG, hGft]
  exact hx

theorem applyDetail_hourly (p : RetentionPolicy) (files : List Info) :
    (applyDetail p files).hourlyFiles =
      groupFilesByPeriod hourGrouper p.Hourly files := rfl

theorem applyDetail_daily (p : RetentionPolicy) (files : List Info) :
    (applyDetail p files).dailyFiles =
      groupFilesByPeriod dayGrouper p.Daily
        (applyDetail p files).hourlyFiles.unselected := rfl

theorem applyDetail_weekly (p : RetentionPolicy) (files : List Info) :
    (applyDetail p files).weeklyFiles =
      groupFilesByPeriod weekGrouper p.Weekly
        (applyDetail p files).dailyFiles.unselected := rfl

theorem applyDetail_monthly (p : RetentionPolicy) (files : List Info) :
    (applyDetail p files).monthlyFiles =
      groupFilesByPeriod monthGrouper p.Monthly
        (applyDetail p files).weeklyFiles.unselected := rfl

theorem applyDetail_yearly (p : RetentionPolicy) (files : List Info) :
    (applyDetail p files).yearlyFiles =
      groupFilesByPeriod yearGrouper p.Yearly
        (applyDetail p files).monthlyFiles.unselected := rfl

theorem applyDetail_toDelete (p : RetentionPolicy) (files : List Info) :
    (applyDetail p files).toDelete =
      (applyDetail p files).hourlyFiles.toDelete ++
      (applyDetail p files).dailyFiles.toDelete ++
      (applyDetail p files).weeklyFiles.toDelete ++
      (applyDetail p files).monthlyFiles.toDelete ++
      (applyDetail p files).yearlyFiles.toDelete ++
      (applyDetail p files).yearlyFiles.unselected := rfl

theorem retainedAll_eq (p : RetentionPolicy) (files : List Info) :
    retainedAll p files =
      (applyDetail p files).hourlyFiles.selected ++
      (applyDetail p files).dailyFiles.selected ++
      (applyDetail p files).weeklyFiles.selected ++
      (applyDetail p files).monthlyFiles.selected ++
      (applyDetail p files).yearlyFiles.selected := rfl

/-! ## Concrete records used for concrete instances -/

/-- Helper building a parsed backup timestamp (seconds and nanoseconds are
zero, as the filename parser produces). -/
def mkTime (y m d h mi : Nat) : Time := ⟨y, m, d, h, mi, 0, 0⟩

/-- A record at 2024-03-15 12:29 UTC. -/
def fA : Info := ⟨"backup-2024-03-15-12-29.tar.gz", mkTime 2024 3 15 12 29, 0⟩

/-- A record at 2024-03-15 12:01 UTC (same hour as fA). -/
def fB : Info := ⟨"backup-2024-03-15-12-01.tar.gz", mkTime 2024 3 15 12 1, 0⟩

/-- A record at 2024-03-15 11:59 UTC (previous hour). -/
def fC : Info := ⟨"backup-2024-03-15-11-59.tar.gz", mkTime 2024 3 15 11 59, 0⟩

/-- A record at 2024-03-14 10:00 UTC (previous day). -/
def fD : Info := ⟨"backup-2024-03-14-10-00.tar.gz", mkTime 2024 3 14 10 0, 0⟩

/-- A reference instant, 2024-03-15 12:30 UTC. -/
def nowT : Time := mkTime 2024 3 15 12 30

/-- A policy keeping two hourly buckets and nothing else. -/
def cxPolicy : RetentionPolicy := ⟨2, 0, 0, 0, 0⟩

/-- Three files: two in the 12:00 hour bucket, one in the 11:00 bucket. -/
def cxFiles : List Info := [fA, fB, fC]

/-- Two records listed oldest-first (an out-of-order input). -/
def c6Files : List Info := [fC, fB]

/-! ## The claims -/

/-- C3: a keep-count of 0 makes a tier a pass-through: nothing is selected,
nothing is added to toDelete, and every record of the candidate set moves to
the tier's unselected output (to be judged by the next tier). -/
theorem zero_keep_pass_through (g : Info → Int) (files : List Info) :
    (groupFilesByPeriod g 0 files).selected = [] ∧
    (groupFilesByPeriod g 0 files).toDelete = [] ∧
    (groupFilesByPeriod g 0 files).unselected.Perm files := by
  have h := selectGroups_capped 0 0 (by simp) (groupFilesByTimePeriod g files)
  unfold groupFilesByPeriod
  rw [h]
  exact ⟨rfl, rfl, gfbtp_flatten_perm g files⟩

/-- C10: a negative keep-count behaves as keep-all: the guard
len(selected) == keepCount never fires, so the tier's unselected output is
empty, the most-recent record of every bucket is selected, and only
same-bucket siblings land in toDelete. -/
theorem negative_keep_keeps_all (g : Info → Int) (k : Int) (files : List Info)
    (hk : k < 0) :
    (groupFilesByPeriod g k files).unselected = [] ∧
    ((groupFilesByPeriod g k files).selected ++
      (groupFilesByPeriod g k files).toDelete).Perm files ∧
    ∀ G ∈ groupFilesByTimePeriod g files, ∃ f t, G = f :: t ∧
      f ∈ (groupFilesByPeriod g k files).selected ∧
      (∀ x ∈ t, x ∈ (groupFilesByPeriod g k files).toDelete) ∧
      ∀ x ∈ G, x.Timestamp.absNano ≤ f.Timestamp.absNano := by
  obtain ⟨a, b, hab, hsel, htd, huns, hcap, -⟩ := gfp_struct g k files
  have hb : b = [] := by
    by_contra hbne
    have h1 := hcap hbne
    omega
  subst hb
  rw [List.append_nil] at hab
  refine ⟨by rw [huns]; rfl, ?_, ?_⟩
  · have hperm := gfp_perm g k files
    rw [huns] at hperm
    simpa using hperm
  · intro G hG
    have haG : G ∈ a := by
      rw [← hab]
      exact hG
    obtain ⟨f, t, rfl⟩ : ∃ f t, G = f :: t := by
      have := gfbtp_ne_nil g files G hG
      cases G with
      | nil => exact absurd rfl this
      | cons u v => exact ⟨u, v, rfl⟩
    refine ⟨f, t, rfl, ?_, ?_, ?_⟩
    · rw [hsel]
      exact List.mem_map.mpr ⟨f :: t, haG, by simp⟩
    · intro x hx
      rw [htd]
      exact List.mem_flatten.mpr ⟨t, List.mem_map.mpr ⟨f :: t, haG, by simp⟩, hx⟩
    · exact gfbtp_head_max g files _ hG f t rfl

/-- C10 witness: a concrete run with keep-count -1. -/
theorem negative_keep_keeps_all_witness :
    (-1 : Int) < 0 ∧
    ((groupFilesByPeriod hourGrouper (-1) cxFiles).unselected = [] ∧
    ((groupFilesByPeriod hourGrouper (-1) cxFiles).selected ++
      (groupFilesByPeriod hourGrouper (-1) cxFiles).toDelete).Perm cxFiles ∧
    ∀ G ∈ groupFilesByTimePeriod hourGrouper cxFiles, ∃ f t, G = f :: t ∧
      f ∈ (groupFilesByPeriod hourGrouper (-1) cxFiles).selected ∧
      (∀ x ∈ t, x ∈ (groupFilesByPeriod hourGrouper (-1) cxFiles).toDelete) ∧
      ∀ x ∈ G, x.Timestamp.absNano ≤ f.Timestamp.absNano) :=
  ⟨by decide, negative_keep_keeps_all hourGrouper (-1) cxFiles (by decide)⟩

/-- C8: the engine is total: the error channel is always nil, and the empty
input yields an empty toDelete list. -/
theorem apply_total_empty (p : RetentionPolicy) (files : List Info)
    (hp : p.NonNeg) :
    (Apply p files).2 = none ∧ (Apply p []).1 = [] := by
  constructor
  · unfold Apply
    split <;> rfl
  · rfl

/-- C8 witness: a concrete policy and file list. -/
theorem apply_total_empty_witness :
    cxPolicy.NonNeg ∧
    ((Apply cxPolicy cxFiles).2 = none ∧ (Apply cxPolicy []).1 = []) :=
  ⟨by decide, apply_total_empty cxPolicy cxFiles (by decide)⟩

/-- C9: the duration-based and the calendar-aligned Apply disagree: with
hourly = 2 and files at 12:29, 12:01 and 11:59 seen from 12:30, the
duration-based variant puts all three in one elapsed-hour bucket and deletes
the 11:59 record, while the calendar-aligned variant keeps it as the most
recent record of the 11:00 calendar hour. -/
theorem variants_disagree :
    fC ∈ (ApplyDur cxPolicy cxFiles nowT).1 ∧
    fC ∉ (Apply cxPolicy cxFiles).1 := by
  decide

/-- C6 counterexample: the duration-based Apply of
src/internal/retention/policy.go sorts the caller's slice in place (no
clone), so an out-of-order input list is reordered by the call. -/
theorem apply_mutates_input : ApplyDurBufferAfter c6Files ≠ c6Files := by
  decide

/-- C6 amended: the calendar-aligned variant clones before sorting and
leaves the caller's list unchanged; the duration-based variant leaves the
caller's slice permuted into descending-timestamp order. -/
theorem buffer_after_apply (files : List Info) :
    bufferAfterCal files = files ∧
    (ApplyDurBufferAfter files).Perm files ∧
    List.Pairwise (fun a b => b.Timestamp.absNano ≤ a.Timestamp.absNano)
      (ApplyDurBufferAfter files) := by
  refine ⟨rfl, ?_, ?_⟩
  · unfold ApplyDurBufferAfter
    split
    · exact List.Perm.refl files
    · exact sortDesc_perm files
  · unfold ApplyDurBufferAfter
    split
    · next h =>
      rw [List.isEmpty_iff.mp h]
      exact List.Pairwise.nil
    · exact sortDesc_sorted files

/-- C1: conservation: every input record appears in exactly one of the
finally retained lists (the five tiers' selected outputs) and the returned
toDelete list: their concatenation is a permutation of the input. -/
theorem apply_conservation (p : RetentionPolicy) (files : List Info)
    (hp : p.NonNeg) :
    (retainedAll p files ++ (Apply p files).1).Perm files := by
  have key : (retainedAll p files ++ (applyDetail p files).toDelete).Perm files := by
    rw [List.perm_iff_count]
    intro x
    have h1 := (gfp_perm hourGrouper p.Hourly files).count_eq x
    have h2 := (gfp_perm dayGrouper p.Daily
      ((hourlyRes p files).unselected)).count_eq x
    have h3 := (gfp_perm weekGrouper p.Weekly
      ((dailyRes p files).unselected)).count_eq x
    have h4 := (gfp_perm monthGrouper p.Monthly
      ((weeklyRes p files).unselected)).count_eq x
    have h5 := (gfp_perm yearGrouper p.Yearly
      ((monthlyRes p files).unselected)).count_eq x
    rw [show groupFilesByPeriod hourGrouper p.Hourly files = hourlyRes p files
      from rfl] at h1
    rw [show groupFilesByPeriod dayGrouper p.Daily (hourlyRes p files).unselected =
      dailyRes p files from rfl] at h2
    rw [show groupFilesByPeriod weekGrouper p.Weekly (dailyRes p files).unselected =
      weeklyRes p files from rfl] at h3
    rw [show groupFilesByPeriod monthGrouper p.Monthly (weeklyRes p files).unselected =
      monthlyRes p files from rfl] at h4
    rw [show groupFilesByPeriod yearGrouper p.Yearly (monthlyRes p files).unselected =
      yearlyRes p files from rfl] at h5
    rw [retainedAll_eq, applyDetail_toDelete]
    show List.count x
      ((hourlyRes p files).selected ++ (dailyRes p files).selected ++
        (weeklyRes p files).selected ++ (monthlyRes p files).selected ++
        (yearlyRes p files).selected ++
        ((hourlyRes p files).toDelete ++ (dailyRes p files).toDelete ++
          (weeklyRes p files).toDelete ++ (monthlyRes p files).toDelete ++
          (yearlyRes p files).toDelete ++ (yearlyRes p files).unselected)) =
      List.count x files
    simp only [List.count_append] at h1 h2 h3 h4 h5 ⊢
    omega
  by_cases hemp : files = []
  · subst hemp
    exact key
  · have hne : ¬ files.isEmpty = true := by
      simpa [List.isEmpty_iff] using hemp
    unfold Apply
    rw [if_neg hne]
    exact key

/-- C1 witness: a concrete policy and file list. -/
theorem apply_conservation_witness :
    cxPolicy.NonNeg ∧
    (retainedAll cxPolicy cxFiles ++ (Apply cxPolicy cxFiles).1).Perm cxFiles :=
  ⟨by decide, apply_conservation cxPolicy cxFiles (by decide)⟩

/-! ## Stage indexing helpers -/

theorem stageInput_subset (p : RetentionPolicy) (files : List Info)
    (i : Fin 5) : ∀ x ∈ stageInput p files i, x ∈ files := by
  have s1 : ∀ x ∈ (hourlyRes p files).unselected, x ∈ files :=
    fun x hx => gfp_uns_subset hourGrouper p.Hourly files x hx
  have s2 : ∀ x ∈ (dailyRes p files).unselected, x ∈ files :=
    fun x hx =>
      s1 x (gfp_uns_subset dayGrouper p.Daily (hourlyRes p files).unselected x hx)
  have s3 : ∀ x ∈ (weeklyRes p files).unselected, x ∈ files :=
    fun x hx =>
      s2 x (gfp_uns_subset weekGrouper p.Weekly (dailyRes p files).unselected x hx)
  have s4 : ∀ x ∈ (monthlyRes p files).unselected, x ∈ files :=
    fun x hx =>
      s3 x
        (gfp_uns_subset monthGrouper p.Monthly (weeklyRes p files).unselected x hx)
  fin_cases i
  · exact fun x hx => hx
  · exact s1
  · exact s2
  · exact s3
  · exact s4

theorem stage_chain (p : RetentionPolicy) (files : List Info) (i j : Fin 5)
    (hij : i < j) :
    ∀ y ∈ stageInput p files j, y ∈ (stageResult p files i).unselected := by
  have s1 : ∀ y ∈ (dailyRes p files).unselected, y ∈ (hourlyRes p files).unselected :=
    fun y hy => gfp_uns_subset dayGrouper p.Daily (hourlyRes p files).unselected y hy
  have s2 : ∀ y ∈ (weeklyRes p files).unselected, y ∈ (dailyRes p files).unselected :=
    fun y hy => gfp_uns_subset weekGrouper p.Weekly (dailyRes p files).unselected y hy
  have s3 : ∀ y ∈ (monthlyRes p files).unselected, y ∈ (weeklyRes p files).unselected :=
    fun y hy =>
      gfp_uns_subset monthGrouper p.Monthly (weeklyRes p files).unselected y hy
  fin_cases i <;> fin_cases j
  · exact absurd hij (by decide)
  · exact fun y hy => hy
  · exact fun y hy => s1 y hy
  · exact fun y hy => s1 y (s2 y hy)
  · exact fun y hy => s1 y (s2 y (s3 y hy))
  · exact absurd hij (by decide)
  · exact absurd hij (by decide)
  · exact fun y hy => hy
  · exact fun y hy => s2 y hy
  · exact fun y hy => s2 y (s3 y hy)
  · exact absurd hij (by decide)
  · exact absurd hij (by decide)
  · exact absurd hij (by decide)
  · exact fun y hy => hy
  · exact fun y hy => s3 y hy
  · exact absurd hij (by decide)
  · exact absurd hij (by decide)
  · exact absurd hij (by decide)
  · exact absurd hij (by decide)
  · exact fun y hy => hy
  · exact absurd hij (by decide)
  · exact absurd hij (by decide)
  · exact absurd hij (by decide)
  · exact absurd hij (by decide)
  · exact absurd hij (by decide)

theorem mem_retainedAll (p : RetentionPolicy) (files : List Info) (y : Info) :
    y ∈ retainedAll p files ↔
      ∃ k : Fin 5, y ∈ (stageResult p files k).selected := by
  rw [retainedAll_eq]
  simp only [List.mem_append]
  constructor
  · rintro ((((h | h) | h) | h) | h)
    · exact ⟨0, h⟩
    · exact ⟨1, h⟩
    · exact ⟨2, h⟩
    · exact ⟨3, h⟩
    · exact ⟨4, h⟩
  · rintro ⟨k, hk⟩
    fin_cases k
    · exact Or.inl (Or.inl (Or.inl (Or.inl hk)))
    · exact Or.inl (Or.inl (Or.inl (Or.inr hk)))
    · exact Or.inl (Or.inl (Or.inr hk))
    · exact Or.inl (Or.inr hk)
    · exact Or.inr hk

/-- C7: for each of the five tier groupers, after the descending sort all
records with equal bucket keys are adjacent, so the single linear pass
yields one group per distinct key: members of a group share a key, distinct
groups carry distinct keys, and the groups exhaust the input. -/
theorem grouping_contiguous (g : Info → Int) (hg : g ∈ tierGroupers)
    (files : List Info) (hv : ∀ f ∈ files, f.Timestamp.Valid) :
    (∀ G ∈ groupFilesByTimePeriod g files, ∀ x ∈ G, ∀ y ∈ G, g x = g y) ∧
    List.Pairwise (fun G1 G2 => keyOf g G1 ≠ keyOf g G2)
      (groupFilesByTimePeriod g files) ∧
    (groupFilesByTimePeriod g files).flatten.Perm files := by
  have hm := mem_tierGroupers_mono hg
  refine ⟨?_, ?_, gfbtp_flatten_perm g files⟩
  · intro G hG x hx y hy
    have h1 := gfbtp_key_eq g files G hG x hx
    have h2 := gfbtp_key_eq g files G hG y hy
    omega
  · exact (gfbtp_keys_lt g files hm hv).imp (fun h => by omega)

/-- C7 witness: the hourly grouper on the concrete file list. -/
theorem grouping_contiguous_witness :
    (hourGrouper ∈ tierGroupers ∧ ∀ f ∈ cxFiles, f.Timestamp.Valid) ∧
    ((∀ G ∈ groupFilesByTimePeriod hourGrouper cxFiles, ∀ x ∈ G, ∀ y ∈ G,
        hourGrouper x = hourGrouper y) ∧
      List.Pairwise (fun G1 G2 => keyOf hourGrouper G1 ≠ keyOf hourGrouper G2)
        (groupFilesByTimePeriod hourGrouper cxFiles) ∧
      (groupFilesByTimePeriod hourGrouper cxFiles).flatten.Perm cxFiles) :=
  ⟨⟨List.mem_cons_self _ _, by decide⟩,
    grouping_contiguous hourGrouper (List.mem_cons_self _ _) cxFiles (by decide)⟩

/-- C5: monotonic precedence: a record selected at tier i is never in the
toDelete or unselected output of a later tier j, because later tiers only
ever see the unselected flow, which excludes everything selected earlier. -/
theorem monotonic_precedence (p : RetentionPolicy) (files : List Info)
    (hv : ∀ f ∈ files, f.Timestamp.Valid) (i j : Fin 5) (hij : i < j)
    (x : Info) (hx : x ∈ (stageResult p files i).selected) :
    x ∉ (stageResult p files j).toDelete ∧
    x ∉ (stageResult p files j).unselected := by
  have hvi : ∀ f ∈ stageInput p files i, f.Timestamp.Valid :=
    fun f hf => hv f (stageInput_subset p files i f hf)
  have hnot : x ∉ (stageResult p files i).unselected :=
    gfp_sel_not_unsel (tierGrouper i) (stageKeep p i) (stageInput p files i)
      (tierGrouper_mono i) hvi x hx
  have hchain := stage_chain p files i j hij
  constructor
  · intro hmem
    exact hnot (hchain x
      (gfp_td_subset (tierGrouper j) (stageKeep p j) (stageInput p files j) x hmem))
  · intro hmem
    exact hnot (hchain x
      (gfp_uns_subset (tierGrouper j) (stageKeep p j) (stageInput p files j) x hmem))

theorem gfp_sel_val_eq_head (g : Info → Int) (k : Int) (files : List Info)
    (hm : MonoGrouper g) (hv : ∀ f ∈ files, f.Timestamp.Valid)
    (G : List Info) (hG : G ∈ groupFilesByTimePeriod g files)
    (f : Info) (t : List Info) (hGft : G = f :: t)
    (y : Info) (hy : y ∈ (groupFilesByPeriod g k files).selected)
    (hyG : y ∈ G) : y = f := by
  obtain ⟨a, b, hab, hsel, -, -, -, -⟩ := gfp_struct g k files
  rw [hsel] at hy
  obtain ⟨Ga, hGa, hfeq⟩ := List.mem_map.mp hy
  have hGa' : Ga ∈ groupFilesByTimePeriod g files := by
    rw [hab]
    exact List.mem_append_left b hGa
  have hGane : Ga ≠ [] := gfbtp_ne_nil g files Ga hGa'
  have hkeyy : g y = keyOf g G := gfbtp_key_eq g files G hG y hyG
  have hkGa : keyOf g Ga = g y := by
    have := gfbtp_key_eq g files Ga hGa' _ (headI_mem hGane)
    rw [hfeq] at this
    omega
  have hGaG : Ga = G :=
    pairwise_key_inj (gfbtp_keys_lt g files hm hv) Ga hGa' G hG (by omega)
  rw [hGaG, hGft] at hfeq
  simpa using hfeq.symm

theorem count_headI_eq_one (g : Info → Int) (a : List (List Info))
    (G : List Info) (hG : G ∈ a)
    (hpw : List.Pairwise (fun X Y => keyOf g Y < keyOf g X) a)
    (hkeys : ∀ X ∈ a, keyOf g X = g X.headI) :
    List.count G.headI (a.map List.headI) = 1 := by
  induction a with
  | nil => simp at hG
  | cons X a' ih =>
    rcases List.mem_cons.mp hG with rfl | hG'
    · rw [List.map_cons, List.count_cons_self]
      have hz : List.count G.headI (a'.map List.headI) = 0 := by
        rw [List.count_eq_zero]
        intro hmem
        obtain ⟨Y, hY, hYeq⟩ := List.mem_map.mp hmem
        have h1 := hkeys Y (List.mem_cons_of_mem _ hY)
        have h2 := hkeys G (List.mem_cons_self _ _)
        have h3 := (List.pairwise_cons.mp hpw).1 Y hY
        rw [hYeq] at h1
        omega
      omega
    · rw [List.map_cons, List.count_cons]
      have hne : ¬ (X.headI == G.headI) = true := by
        simp only [beq_iff_eq]
        intro heq
        have h1 := hkeys X (List.mem_cons_self _ _)
        have h2 := hkeys G (List.mem_cons_of_mem _ hG')
        have h3 := (List.pairwise_cons.mp hpw).1 G hG'
        rw [heq] at h1
        omega
      rw [if_neg hne]
      have := ih hG' (List.pairwise_cons.mp hpw).2
        (fun X hX => hkeys X (List.mem_cons_of_mem _ hX))
      omega

theorem gfp_count_sel_head (g : Info → Int) (k : Int) (files : List Info)
    (hm : MonoGrouper g) (hv : ∀ f ∈ files, f.Timestamp.Valid)
    (G : List Info) (hG : G ∈ groupFilesByTimePeriod g files)
    (f : Info) (t : List Info) (hGft : G = f :: t)
    (hsel : f ∈ (groupFilesByPeriod g k files).selected) :
    List.count f (groupFilesByPeriod g k files).selected = 1 := by
  obtain ⟨a, b, hab, hselE, -, -, -, -⟩ := gfp_struct g k files
  rw [hselE] at hsel ⊢
  obtain ⟨Ga, hGa, hfeq⟩ := List.mem_map.mp hsel
  have hGa' : Ga ∈ groupFilesByTimePeriod g files := by
    rw [hab]
    exact List.mem_append_left b hGa
  have hGane : Ga ≠ [] := gfbtp_ne_nil g files Ga hGa'
  have hkGa : keyOf g Ga = g f := by
    have := gfbtp_key_eq g files Ga hGa' _ (headI_mem hGane)
    rw [hfeq] at this
    omega
  have hkG : keyOf g G = g f := by
    rw [hGft]
    rfl
  have hGaG : Ga = G :=
    pairwise_key_inj (gfbtp_keys_lt g files hm hv) Ga hGa' G hG (by omega)
  have hGmem : G ∈ a := hGaG ▸ hGa
  have hpwAll := gfbtp_keys_lt g files hm hv
  rw [hab] at hpwAll
  have hpa := (List.pairwise_append.mp hpwAll).1
  have hkeys : ∀ X ∈ a, keyOf g X = g X.headI := by
    intro X hX
    have hX' : X ∈ groupFilesByTimePeriod g files := by
      rw [hab]
      exact List.mem_append_left b hX
    exact (gfbtp_key_eq g files X hX' _ (headI_mem (gfbtp_ne_nil g files X hX'))).symm
  have hcount := count_headI_eq_one g a G hGmem hpa hkeys
  rw [hGft] at hcount
  simpa using hcount

/-- C2: at each tier, a bucket that contributes a selected record retains
exactly one record overall: the bucket's first (latest-timestamp) record;
all other records of the bucket go to that tier's toDelete list. -/
theorem bucket_latest_winner (p : RetentionPolicy) (files : List Info)
    (hv : ∀ f ∈ files, f.Timestamp.Valid) (i : Fin 5) (f : Info)
    (t : List Info)
    (hG : f :: t ∈ groupFilesByTimePeriod (tierGrouper i) (stageInput p files i))
    (hsel : f ∈ (stageResult p files i).selected) :
    (∀ x ∈ f :: t, x.Timestamp.absNano ≤ f.Timestamp.absNano) ∧
    (∀ x ∈ t, x ∈ (stageResult p files i).toDelete) ∧
    (retainedAll p files).countP (fun x => decide (x ∈ f :: t)) = 1 := by
  have hm := tierGrouper_mono i
  have hvi : ∀ x ∈ stageInput p files i, x.Timestamp.Valid :=
    fun x hx => hv x (stageInput_subset p files i x hx)
  refine ⟨gfbtp_head_max _ _ _ hG f t rfl,
    gfp_sel_is_head _ (stageKeep p i) _ hm hvi _ hG f t rfl hsel, ?_⟩
  have hval : ∀ y ∈ retainedAll p files, y ∈ f :: t → y = f := by
    intro y hy hyG
    obtain ⟨k, hk⟩ := (mem_retainedAll p files y).mp hy
    rcases lt_trichotomy k i with hki | hki | hki
    · have hyc : y ∈ stageInput p files i := gfbtp_mem_files hG hyG
      have hyu : y ∈ (stageResult p files k).unselected :=
        stage_chain p files k i hki y hyc
      have hvk : ∀ x ∈ stageInput p files k, x.Timestamp.Valid :=
        fun x hx => hv x (stageInput_subset p files k x hx)
      exact absurd hyu
        (gfp_sel_not_unsel (tierGrouper k) (stageKeep p k) (stageInput p files k)
          (tierGrouper_mono k) hvk y hk)
    · subst hki
      exact gfp_sel_val_eq_head (tierGrouper k) (stageKeep p k)
        (stageInput p files k) (tierGrouper_mono k) hvi _ hG f t rfl y hk hyG
    · have hyin : y ∈ stageInput p files k :=
        gfp_sel_subset (tierGrouper k) (stageKeep p k) (stageInput p files k) y hk
      have hyu : y ∈ (stageResult p files i).unselected :=
        stage_chain p files i k hki y hyin
      have hlt := gfp_unsel_key_lt_sel (tierGrouper i) (stageKeep p i)
        (stageInput p files i) hm hvi f hsel y hyu
      have h1 := gfbtp_key_eq _ _ _ hG y hyG
      have h2 := gfbtp_key_eq _ _ _ hG f (List.mem_cons_self f t)
      omega
  have hcp : (retainedAll p files).countP (fun x => decide (x ∈ f :: t)) =
      List.count f (retainedAll p files) := by
    rw [List.count]
    apply List.countP_congr
    intro x hx
    simp only [decide_eq_true_eq, beq_iff_eq]
    constructor
    · exact hval x hx
    · rintro rfl
      exact List.mem_cons_self x t
  rw [hcp]
  have hone : List.count f (stageResult p files i).selected = 1 :=
    gfp_count_sel_head (tierGrouper i) (stageKeep p i) (stageInput p files i)
      hm hvi _ hG f t rfl hsel
  have hzero : ∀ k : Fin 5, ¬ k = i →
      List.count f (stageResult p files k).selected = 0 := by
    intro k hkne
    rw [List.count_eq_zero]
    intro hmem
    rcases lt_trichotomy k i with hki | hki | hki
    · have hyc : f ∈ stageInput p files i :=
        gfbtp_mem_files hG (List.mem_cons_self f t)
      have hyu : f ∈ (stageResult p files k).unselected :=
        stage_chain p files k i hki f hyc
      have hvk : ∀ x ∈ stageInput p files k, x.Timestamp.Valid :=
        fun x hx => hv x (stageInput_subset p files k x hx)
      exact absurd hyu
        (gfp_sel_not_unsel (tierGrouper k) (stageKeep p k) (stageInput p files k)
          (tierGrouper_mono k) hvk f hmem)
    · exact absurd hki hkne
    · have hyin : f ∈ stageInput p files k :=
        gfp_sel_subset (tierGrouper k) (stageKeep p k) (stageInput p files k) f hmem
      have hyu : f ∈ (stageResult p files i).unselected :=
        stage_chain p files i k hki f hyin
      exact absurd hyu
        (gfp_sel_not_unsel (tierGrouper i) (stageKeep p i) (stageInput p files i)
          hm hvi f hsel)
  have hsum : List.count f (retainedAll p files) =
      List.count f (stageResult p files 0).selected +
      List.count f (stageResult p files 1).selected +
      List.count f (stageResult p files 2).selected +
      List.count f (stageResult p files 3).selected +
      List.count f (stageResult p files 4).selected := by
    rw [retainedAll_eq]
    simp only [List.count_append]
    rfl
  have hv0 : List.count f (stageResult p files 0).selected =
      (if (0 : Fin 5) = i then 1 else 0) := by
    by_cases h : (0 : Fin 5) = i
    · rw [if_pos h, h]
      exact hone
    · rw [if_neg h]
      exact hzero 0 h
  have hv1 : List.count f (stageResult p files 1).selected =
      (if (1 : Fin 5) = i then 1 else 0) := by
    by_cases h : (1 : Fin 5) = i
    · rw [if_pos h, h]
      exact hone
    · rw [if_neg h]
      exact hzero 1 h
  have hv2 : List.count f (stageResult p files 2).selected =
      (if (2 : Fin 5) = i then 1 else 0) := by
    by_cases h : (2 : Fin 5) = i
    · rw [if_pos h, h]
      exact hone
    · rw [if_neg h]
      exact hzero 2 h
  have hv3 : List.count f (stageResult p files 3).selected =
      (if (3 : Fin 5) = i then 1 else 0) := by
    by_cases h : (3 : Fin 5) = i
    · rw [if_pos h, h]
      exact hone
    · rw [if_neg h]
      exact hzero 3 h
  have hv4 : List.count f (stageResult p files 4).selected =
      (if (4 : Fin 5) = i then 1 else 0) := by
    by_cases h : (4 : Fin 5) = i
    · rw [if_pos h, h]
      exact hone
    · rw [if_neg h]
      exact hzero 4 h
  rw [hsum, hv0, hv1, hv2, hv3, hv4]
  fin_cases i <;> simp

/-- C2 witness: the hourly tier on the concrete list: the 12:00-hour bucket
holds fA and fB, fA is selected, and exactly one of its records is retained. -/
theorem bucket_latest_winner_witness :
    ((∀ f ∈ cxFiles, f.Timestamp.Valid) ∧
      fA :: [fB] ∈ groupFilesByTimePeriod (tierGrouper 0)
        (stageInput cxPolicy cxFiles 0) ∧
      fA ∈ (stageResult cxPolicy cxFiles 0).selected) ∧
    ((∀ x ∈ fA :: [fB], x.Timestamp.absNano ≤ fA.Timestamp.absNano) ∧
      (∀ x ∈ [fB], x ∈ (stageResult cxPolicy cxFiles 0).toDelete) ∧
      (retainedAll cxPolicy cxFiles).countP
        (fun x => decide (x ∈ fA :: [fB])) = 1) :=
  ⟨⟨by decide, by decide, by decide⟩,
    bucket_latest_winner cxPolicy cxFiles (by decide) 0 fA [fB] (by decide)
      (by decide)⟩

/-! ## The shape of a tier run on an already-minimal candidate list -/

theorem groupRuns_singletons (g : Info → Int) (A B : List Info)
    (hA : List.Pairwise (fun x y => g y < g x) A)
    (hB : ∀ x ∈ B, ∀ y ∈ A, g x < g y) :
    groupRuns g (A ++ B) = A.map (fun x => [x]) ++ groupRuns g B := by
  induction A with
  | nil => simp
  | cons a A' ih =>
    have hrest : groupRuns g (A' ++ B) = A'.map (fun x => [x]) ++ groupRuns g B :=
      ih (List.pairwise_cons.mp hA).2
        (fun x hx y hy => hB x hx y (List.mem_cons_of_mem a hy))
    show groupRuns g (a :: (A' ++ B)) = [a] :: (A'.map (fun x => [x]) ++ groupRuns g B)
    cases hAB : A' ++ B with
    | nil =>
      obtain ⟨hA', hB'⟩ := List.append_eq_nil.mp hAB
      subst hA'
      subst hB'
      rfl
    | cons w rest =>
      have hw : g w < g a := by
        cases A' with
        | nil =>
          have hwB : w ∈ B := by
            simp only [List.nil_append] at hAB
            rw [hAB]
            exact List.mem_cons_self w rest
          exact hB w hwB a (List.mem_cons_self a _)
        | cons a' A'' =>
          simp only [List.cons_append] at hAB
          injection hAB with hw1 hw2
          rw [← hw1]
          exact (List.pairwise_cons.mp hA).1 a' (List.mem_cons_self a' A'')
      rw [groupRuns_cons_ne g a w rest (by omega)]
      rw [← hAB]
      rw [hrest]

theorem selectGroups_singletons (k : Int) (A : List Info)
    (gsB : List (List Info)) :
    ∀ c : Nat,
      ((c : Int) + A.length = k ∨ (gsB = [] ∧ (c : Int) + A.length < k)) →
      selectGroups k c (A.map (fun x => [x]) ++ gsB) = ⟨A, [], gsB.flatten⟩ := by
  induction A with
  | nil =>
    intro c hc
    simp only [List.length_nil, Nat.cast_zero, add_zero] at hc
    simp only [List.map_nil, List.nil_append]
    rcases hc with hc | ⟨hB, hc⟩
    · rw [selectGroups_capped k c hc]
    · subst hB
      rfl
  | cons a A' ih =>
    intro c hc
    have hck : ¬ (c : Int) = k := by
      simp only [List.length_cons] at hc
      push_cast at hc
      omega
    have hstep : selectGroups k c ([a] :: (A'.map (fun x => [x]) ++ gsB)) =
        ⟨a :: (selectGroups k (c + 1) (A'.map (fun x => [x]) ++ gsB)).selected,
          [] ++ (selectGroups k (c + 1) (A'.map (fun x => [x]) ++ gsB)).toDelete,
          (selectGroups k (c + 1) (A'.map (fun x => [x]) ++ gsB)).unselected⟩ := by
      simp [selectGroups, hck]
    show selectGroups k c ([a] :: (A'.map (fun x => [x]) ++ gsB)) = _
    have harg : ((c : Int) + 1 + A'.length = k ∨
        (gsB = [] ∧ (c : Int) + 1 + A'.length < k)) := by
      simp only [List.length_cons] at hc
      rcases hc with hc | ⟨hB, hc⟩
      · left
        push_cast at hc ⊢
        omega
      · right
        refine ⟨hB, ?_⟩
        push_cast at hc ⊢
        omega
    have harg2 : (((c + 1 : Nat) : Int) + A'.length = k ∨
        (gsB = [] ∧ ((c + 1 : Nat) : Int) + A'.length < k)) := by
      push_cast
      exact harg
    rw [hstep, ih (c + 1) harg2]
    rfl

theorem gfp_of_partition (g : Info → Int) (k : Int) (files A B : List Info)
    (hsort : sortDesc files = A ++ B)
    (hAkeys : List.Pairwise (fun x y => g y < g x) A)
    (hBlt : ∀ x ∈ B, ∀ y ∈ A, g x < g y)
    (hk : (A.length : Int) = k ∨ (B = [] ∧ (A.length : Int) < k)) :
    groupFilesByPeriod g k files = ⟨A, [], B⟩ := by
  unfold groupFilesByPeriod groupFilesByTimePeriod
  rw [hsort, groupRuns_singletons g A B hAkeys hBlt]
  have hC : (0 : Int) + A.length = k ∨
      (groupRuns g B = [] ∧ (0 : Int) + A.length < k) := by
    rcases hk with hk | ⟨hB, hk⟩
    · left
      omega
    · right
      subst hB
      exact ⟨rfl, by omega⟩
  rw [selectGroups_singletons k A (groupRuns g B) 0 hC, groupRuns_flatten]

/-! ## Uniqueness of the descending sort on distinct timestamps -/

theorem strict_sorted_unique :
    ∀ l1 l2 : List Info,
      List.Pairwise (fun a b => b.Timestamp.absNano < a.Timestamp.absNano) l1 →
      List.Pairwise (fun a b => b.Timestamp.absNano < a.Timestamp.absNano) l2 →
      l1.Perm l2 → l1 = l2 := by
  intro l1
  induction l1 with
  | nil =>
    intro l2 _ _ hp
    exact (List.Perm.eq_nil hp.symm).symm
  | cons x t1 ih =>
    intro l2 h1 h2 hp
    cases l2 with
    | nil => simpa using hp.length_eq
    | cons y t2 =>
      have hxy : x = y := by
        by_contra hne
        have hx2 : x ∈ y :: t2 := hp.subset (List.mem_cons_self x t1)
        have hy1 : y ∈ x :: t1 := hp.symm.subset (List.mem_cons_self y t2)
        rcases List.mem_cons.mp hx2 with h | hx2'
        · exact hne h
        · have ha : x.Timestamp.absNano < y.Timestamp.absNano :=
            (List.pairwise_cons.mp h2).1 x hx2'
          rcases List.mem_cons.mp hy1 with h | hy1'
          · exact hne h.symm
          · have hb := (List.pairwise_cons.mp h1).1 y hy1'
            omega
      subst hxy
      rw [ih t2 (List.pairwise_cons.mp h1).2 (List.pairwise_cons.mp h2).2
        hp.cons_inv]

theorem sortDesc_eq_of_perm (l m : List Info)
    (hm : List.Pairwise (fun a b => b.Timestamp.absNano < a.Timestamp.absNano) m)
    (hp : l.Perm m) : sortDesc l = m := by
  have hperm : (sortDesc l).Perm m := (sortDesc_perm l).trans hp
  have hne : List.Pairwise
      (fun a b => a.Timestamp.absNano ≠ b.Timestamp.absNano) (sortDesc l) := by
    have hnem : List.Pairwise
        (fun a b => a.Timestamp.absNano ≠ b.Timestamp.absNano) m :=
      hm.imp (fun h => by omega)
    exact (List.Perm.pairwise_iff (fun h => Ne.symm h) hperm).mpr hnem
  have hstrict : List.Pairwise
      (fun a b => b.Timestamp.absNano < a.Timestamp.absNano) (sortDesc l) :=
    ((sortDesc_sorted l).and hne).imp (fun h => by omega)
  exact strict_sorted_unique (sortDesc l) m hstrict hm hperm

theorem gfp_sel_strict_nano (g : Info → Int) (k : Int) (files : List Info)
    (hm : MonoGrouper g) (hv : ∀ f ∈ files, f.Timestamp.Valid) :
    List.Pairwise (fun x y => y.Timestamp.absNano < x.Timestamp.absNano)
      (groupFilesByPeriod g k files).selected := by
  refine List.Pairwise.imp_of_mem ?_ (gfp_sel_keys_lt g k files hm hv)
  intro x y hx hy hrel
  exact hm.nano_lt_of_key_lt (hv y (gfp_sel_subset g k files y hy))
    (hv x (gfp_sel_subset g k files x hx)) hrel

theorem hourlyRes_def (p : RetentionPolicy) (files : List Info) :
    hourlyRes p files = groupFilesByPeriod hourGrouper p.Hourly files := rfl

theorem dailyRes_def (p : RetentionPolicy) (files : List Info) :
    dailyRes p files =
      groupFilesByPeriod dayGrouper p.Daily (hourlyRes p files).unselected := rfl

theorem weeklyRes_def (p : RetentionPolicy) (files : List Info) :
    weeklyRes p files =
      groupFilesByPeriod weekGrouper p.Weekly (dailyRes p files).unselected := rfl

theorem monthlyRes_def (p : RetentionPolicy) (files : List Info) :
    monthlyRes p files =
      groupFilesByPeriod monthGrouper p.Monthly (weeklyRes p files).unselected := rfl

theorem yearlyRes_def (p : RetentionPolicy) (files : List Info) :
    yearlyRes p files =
      groupFilesByPeriod yearGrouper p.Yearly (monthlyRes p files).unselected := rfl

theorem retainedAll_res (p : RetentionPolicy) (files : List Info) :
    retainedAll p files =
      (hourlyRes p files).selected ++ (dailyRes p files).selected ++
      (weeklyRes p files).selected ++ (monthlyRes p files).selected ++
      (yearlyRes p files).selected := rfl

/-- C4: idempotence: running Apply again, with the same policy, on any list
holding exactly the records the first run retained produces an empty
toDelete list. -/
theorem apply_idempotent (p : RetentionPolicy) (files : List Info)
    (hp : p.NonNeg) (hv : ∀ f ∈ files, f.Timestamp.Valid)
    (s : List Info) (hs : s.Perm (retainedAll p files)) :
    (Apply p s).1 = [] := by
  obtain ⟨hp0, hp1, hp2, hp3, hp4⟩ := hp
  -- validity of the candidate set of each original tier
  have hv0 : ∀ x ∈ files, x.Timestamp.Valid := hv
  have s1f : ∀ x ∈ (hourlyRes p files).unselected, x ∈ files :=
    fun x hx => gfp_uns_subset hourGrouper p.Hourly files x hx
  have s2f : ∀ x ∈ (dailyRes p files).unselected, x ∈ files :=
    fun x hx =>
      s1f x (gfp_uns_subset dayGrouper p.Daily (hourlyRes p files).unselected x hx)
  have s3f : ∀ x ∈ (weeklyRes p files).unselected, x ∈ files :=
    fun x hx =>
      s2f x (gfp_uns_subset weekGrouper p.Weekly (dailyRes p files).unselected x hx)
  have s4f : ∀ x ∈ (monthlyRes p files).unselected, x ∈ files :=
    fun x hx =>
      s3f x
        (gfp_uns_subset monthGrouper p.Monthly (weeklyRes p files).unselected x hx)
  have hv1 : ∀ x ∈ (hourlyRes p files).unselected, x.Timestamp.Valid :=
    fun x hx => hv x (s1f x hx)
  have hv2 : ∀ x ∈ (dailyRes p files).unselected, x.Timestamp.Valid :=
    fun x hx => hv x (s2f x hx)
  have hv3 : ∀ x ∈ (weeklyRes p files).unselected, x.Timestamp.Valid :=
    fun x hx => hv x (s3f x hx)
  have hv4 : ∀ x ∈ (monthlyRes p files).unselected, x.Timestamp.Valid :=
    fun x hx => hv x (s4f x hx)
  -- unselected flows downhill
  have w1 : ∀ x ∈ (dailyRes p files).unselected, x ∈ (hourlyRes p files).unselected :=
    fun x hx => gfp_uns_subset dayGrouper p.Daily _ x hx
  have w2 : ∀ x ∈ (weeklyRes p files).unselected, x ∈ (dailyRes p files).unselected :=
    fun x hx => gfp_uns_subset weekGrouper p.Weekly _ x hx
  have w3 : ∀ x ∈ (monthlyRes p files).unselected, x ∈ (weeklyRes p files).unselected :=
    fun x hx => gfp_uns_subset monthGrouper p.Monthly _ x hx
  -- selected lists live in their tier's candidate set
  have q1 : ∀ x ∈ (dailyRes p files).selected, x ∈ (hourlyRes p files).unselected :=
    fun x hx => gfp_sel_subset dayGrouper p.Daily _ x hx
  have q2 : ∀ x ∈ (weeklyRes p files).selected, x ∈ (dailyRes p files).unselected :=
    fun x hx => gfp_sel_subset weekGrouper p.Weekly _ x hx
  have q3 : ∀ x ∈ (monthlyRes p files).selected, x ∈ (weeklyRes p files).unselected :=
    fun x hx => gfp_sel_subset monthGrouper p.Monthly _ x hx
  have q4 : ∀ x ∈ (yearlyRes p files).selected, x ∈ (monthlyRes p files).unselected :=
    fun x hx => gfp_sel_subset yearGrouper p.Yearly _ x hx
  -- memberships of each later selected list in each earlier unselected list
  have m10 : ∀ x ∈ (dailyRes p files).selected, x ∈ (hourlyRes p files).unselected := q1
  have m20 : ∀ x ∈ (weeklyRes p files).selected, x ∈ (hourlyRes p files).unselected :=
    fun x hx => w1 x (q2 x hx)
  have m30 : ∀ x ∈ (monthlyRes p files).selected, x ∈ (hourlyRes p files).unselected :=
    fun x hx => w1 x (w2 x (q3 x hx))
  have m40 : ∀ x ∈ (yearlyRes p files).selected, x ∈ (hourlyRes p files).unselected :=
    fun x hx => w1 x (w2 x (w3 x (q4 x hx)))
  have m21 : ∀ x ∈ (weeklyRes p files).selected, x ∈ (dailyRes p files).unselected := q2
  have m31 : ∀ x ∈ (monthlyRes p files).selected, x ∈ (dailyRes p files).unselected :=
    fun x hx => w2 x (q3 x hx)
  have m41 : ∀ x ∈ (yearlyRes p files).selected, x ∈ (dailyRes p files).unselected :=
    fun x hx => w2 x (w3 x (q4 x hx))
  have m32 : ∀ x ∈ (monthlyRes p files).selected, x ∈ (weeklyRes p files).unselected := q3
  have m42 : ∀ x ∈ (yearlyRes p files).selected, x ∈ (weeklyRes p files).unselected :=
    fun x hx => w3 x (q4 x hx)
  have m43 : ∀ x ∈ (yearlyRes p files).selected, x ∈ (monthlyRes p files).unselected := q4
  -- validity of each selected list's members
  have hvS0 : ∀ x ∈ (hourlyRes p files).selected, x.Timestamp.Valid :=
    fun x hx => hv0 x (gfp_sel_subset hourGrouper p.Hourly files x hx)
  have hvS1 : ∀ x ∈ (dailyRes p files).selected, x.Timestamp.Valid :=
    fun x hx => hv1 x (q1 x hx)
  have hvS2 : ∀ x ∈ (weeklyRes p files).selected, x.Timestamp.Valid :=
    fun x hx => hv2 x (q2 x hx)
  have hvS3 : ∀ x ∈ (monthlyRes p files).selected, x.Timestamp.Valid :=
    fun x hx => hv3 x (q3 x hx)
  have hvS4 : ∀ x ∈ (yearlyRes p files).selected, x.Timestamp.Valid :=
    fun x hx => hv4 x (q4 x hx)
  -- unselected-vs-selected key separation at each original tier
  have hULT0 := gfp_unsel_key_lt_sel hourGrouper p.Hourly files hourGrouper_mono hv0
  have hULT1 := gfp_unsel_key_lt_sel dayGrouper p.Daily
    (hourlyRes p files).unselected dayGrouper_mono hv1
  have hULT2 := gfp_unsel_key_lt_sel weekGrouper p.Weekly
    (dailyRes p files).unselected weekGrouper_mono hv2
  have hULT3 := gfp_unsel_key_lt_sel monthGrouper p.Monthly
    (weeklyRes p files).unselected monthGrouper_mono hv3
  -- strict descending timestamps inside each selected list
  have hn0 := gfp_sel_strict_nano hourGrouper p.Hourly files hourGrouper_mono hv0
  have hn1 := gfp_sel_strict_nano dayGrouper p.Daily
    (hourlyRes p files).unselected dayGrouper_mono hv1
  have hn2 := gfp_sel_strict_nano weekGrouper p.Weekly
    (dailyRes p files).unselected weekGrouper_mono hv2
  have hn3 := gfp_sel_strict_nano monthGrouper p.Monthly
    (weeklyRes p files).unselected monthGrouper_mono hv3
  have hn4 := gfp_sel_strict_nano yearGrouper p.Yearly
    (monthlyRes p files).unselected yearGrouper_mono hv4
  -- strict descending timestamps across tiers
  have c01 : ∀ x ∈ (hourlyRes p files).selected, ∀ y ∈ (dailyRes p files).selected,
      y.Timestamp.absNano < x.Timestamp.absNano := fun x hx y hy =>
    hourGrouper_mono.nano_lt_of_key_lt (hvS1 y hy) (hvS0 x hx)
      (hULT0 x hx y (m10 y hy))
  have c02 : ∀ x ∈ (hourlyRes p files).selected, ∀ y ∈ (weeklyRes p files).selected,
      y.Timestamp.absNano < x.Timestamp.absNano := fun x hx y hy =>
    hourGrouper_mono.nano_lt_of_key_lt (hvS2 y hy) (hvS0 x hx)
      (hULT0 x hx y (m20 y hy))
  have c03 : ∀ x ∈ (hourlyRes p files).selected, ∀ y ∈ (monthlyRes p files).selected,
      y.Timestamp.absNano < x.Timestamp.absNano := fun x hx y hy =>
    hourGrouper_mono.nano_lt_of_key_lt (hvS3 y hy) (hvS0 x hx)
      (hULT0 x hx y (m30 y hy))
  have c04 : ∀ x ∈ (hourlyRes p files).selected, ∀ y ∈ (yearlyRes p files).selected,
      y.Timestamp.absNano < x.Timestamp.absNano := fun x hx y hy =>
    hourGrouper_mono.nano_lt_of_key_lt (hvS4 y hy) (hvS0 x hx)
      (hULT0 x hx y (m40 y hy))
  have c12 : ∀ x ∈ (dailyRes p files).selected, ∀ y ∈ (weeklyRes p files).selected,
      y.Timestamp.absNano < x.Timestamp.absNano := fun x hx y hy =>
    dayGrouper_mono.nano_lt_of_key_lt (hvS2 y hy) (hvS1 x hx)
      (hULT1 x hx y (m21 y hy))
  have c13 : ∀ x ∈ (dailyRes p files).selected, ∀ y ∈ (monthlyRes p files).selected,
      y.Timestamp.absNano < x.Timestamp.absNano := fun x hx y hy =>
    dayGrouper_mono.nano_lt_of_key_lt (hvS3 y hy) (hvS1 x hx)
      (hULT1 x hx y (m31 y hy))
  have c14 : ∀ x ∈ (dailyRes p files).selected, ∀ y ∈ (yearlyRes p files).selected,
      y.Timestamp.absNano < x.Timestamp.absNano := fun x hx y hy =>
    dayGrouper_mono.nano_lt_of_key_lt (hvS4 y hy) (hvS1 x hx)
      (hULT1 x hx y (m41 y hy))
  have c23 : ∀ x ∈ (weeklyRes p files).selected, ∀ y ∈ (monthlyRes p files).selected,
      y.Timestamp.absNano < x.Timestamp.absNano := fun x hx y hy =>
    weekGrouper_mono.nano_lt_of_key_lt (hvS3 y hy) (hvS2 x hx)
      (hULT2 x hx y (m32 y hy))
  have c24 : ∀ x ∈ (weeklyRes p files).selected, ∀ y ∈ (yearlyRes p files).selected,
      y.Timestamp.absNano < x.Timestamp.absNano := fun x hx y hy =>
    weekGrouper_mono.nano_lt_of_key_lt (hvS4 y hy) (hvS2 x hx)
      (hULT2 x hx y (m42 y hy))
  have c34 : ∀ x ∈ (monthlyRes p files).selected, ∀ y ∈ (yearlyRes p files).selected,
      y.Timestamp.absNano < x.Timestamp.absNano := fun x hx y hy =>
    monthGrouper_mono.nano_lt_of_key_lt (hvS4 y hy) (hvS3 x hx)
      (hULT3 x hx y (m43 y hy))
  -- the retained list, right-associated, is strictly descending
  have h34 : List.Pairwise (fun a b => b.Timestamp.absNano < a.Timestamp.absNano)
      ((monthlyRes p files).selected ++ (yearlyRes p files).selected) :=
    List.pairwise_append.mpr ⟨hn3, hn4, fun x hx y hy => c34 x hx y hy⟩
  have h234 : List.Pairwise (fun a b => b.Timestamp.absNano < a.Timestamp.absNano)
      ((weeklyRes p files).selected ++
        ((monthlyRes p files).selected ++ (yearlyRes p files).selected)) :=
    List.pairwise_append.mpr ⟨hn2, h34, by
      intro x hx y hy
      rcases List.mem_append.mp hy with h | h
      · exact c23 x hx y h
      · exact c24 x hx y h⟩
  have h1234 : List.Pairwise (fun a b => b.Timestamp.absNano < a.Timestamp.absNano)
      ((dailyRes p files).selected ++
        ((weeklyRes p files).selected ++
          ((monthlyRes p files).selected ++ (yearlyRes p files).selected))) :=
    List.pairwise_append.mpr ⟨hn1, h234, by
      intro x hx y hy
      rcases List.mem_append.mp hy with h | h
      · exact c12 x hx y h
      rcases List.mem_append.mp h with h | h
      · exact c13 x hx y h
      · exact c14 x hx y h⟩
  have hR : List.Pairwise (fun a b => b.Timestamp.absNano < a.Timestamp.absNano)
      ((hourlyRes p files).selected ++
        ((dailyRes p files).selected ++
          ((weeklyRes p files).selected ++
            ((monthlyRes p files).selected ++ (yearlyRes p files).selected)))) :=
    List.pairwise_append.mpr ⟨hn0, h1234, by
      intro x hx y hy
      rcases List.mem_append.mp hy with h | h
      · exact c01 x hx y h
      rcases List.mem_append.mp h with h | h
      · exact c02 x hx y h
      rcases List.mem_append.mp h with h | h
      · exact c03 x hx y h
      · exact c04 x hx y h⟩
  -- the sorted survivors are exactly the concatenation of the selected lists
  have hRe : retainedAll p files =
      (hourlyRes p files).selected ++
        ((dailyRes p files).selected ++
          ((weeklyRes p files).selected ++
            ((monthlyRes p files).selected ++ (yearlyRes p files).selected))) := by
    rw [retainedAll_res]
    simp [List.append_assoc]
  have hsortS : sortDesc s =
      (hourlyRes p files).selected ++
        ((dailyRes p files).selected ++
          ((weeklyRes p files).selected ++
            ((monthlyRes p files).selected ++ (yearlyRes p files).selected))) :=
    sortDesc_eq_of_perm s _ hR (hRe ▸ hs)
  -- key bounds and cap cases for each rerun tier
  have hkeys0 := gfp_sel_keys_lt hourGrouper p.Hourly files hourGrouper_mono hv0
  have hkeys1 := gfp_sel_keys_lt dayGrouper p.Daily
    (hourlyRes p files).unselected dayGrouper_mono hv1
  have hkeys2 := gfp_sel_keys_lt weekGrouper p.Weekly
    (dailyRes p files).unselected weekGrouper_mono hv2
  have hkeys3 := gfp_sel_keys_lt monthGrouper p.Monthly
    (weeklyRes p files).unselected monthGrouper_mono hv3
  have hkeys4 := gfp_sel_keys_lt yearGrouper p.Yearly
    (monthlyRes p files).unselected yearGrouper_mono hv4
  have hlen0 := gfp_sel_len_le hourGrouper p.Hourly files hp0
  have hlen1 := gfp_sel_len_le dayGrouper p.Daily (hourlyRes p files).unselected hp1
  have hlen2 := gfp_sel_len_le weekGrouper p.Weekly (dailyRes p files).unselected hp2
  have hlen3 := gfp_sel_len_le monthGrouper p.Monthly (weeklyRes p files).unselected hp3
  have hlen4 := gfp_sel_len_le yearGrouper p.Yearly (monthlyRes p files).unselected hp4
  -- if a tier stopped short of its keep-count, everything after it is empty
  have hshort0 : ((hourlyRes p files).selected.length : Int) < p.Hourly →
      (dailyRes p files).selected = [] ∧ (weeklyRes p files).selected = [] ∧
      (monthlyRes p files).selected = [] ∧ (yearlyRes p files).selected = [] := by
    intro hl
    have hU : (hourlyRes p files).unselected = [] :=
      gfp_under_cap hourGrouper p.Hourly files hl
    refine ⟨?_, ?_, ?_, ?_⟩ <;> rw [List.eq_nil_iff_forall_not_mem] <;> intro x hx
    · have := m10 x hx
      rw [hU] at this
      simp at this
    · have := m20 x hx
      rw [hU] at this
      simp at this
    · have := m30 x hx
      rw [hU] at this
      simp at this
    · have := m40 x hx
      rw [hU] at this
      simp at this
  have hshort1 : ((dailyRes p files).selected.length : Int) < p.Daily →
      (weeklyRes p files).selected = [] ∧
      (monthlyRes p files).selected = [] ∧ (yearlyRes p files).selected = [] := by
    intro hl
    have hU : (dailyRes p files).unselected = [] :=
      gfp_under_cap dayGrouper p.Daily (hourlyRes p files).unselected hl
    refine ⟨?_, ?_, ?_⟩ <;> rw [List.eq_nil_iff_forall_not_mem] <;> intro x hx
    · have := m21 x hx
      rw [hU] at this
      simp at this
    · have := m31 x hx
      rw [hU] at this
      simp at this
    · have := m41 x hx
      rw [hU] at this
      simp at this
  have hshort2 : ((weeklyRes p files).selected.length : Int) < p.Weekly →
      (monthlyRes p files).selected = [] ∧ (yearlyRes p files).selected = [] := by
    intro hl
    have hU : (weeklyRes p files).unselected = [] :=
      gfp_under_cap weekGrouper p.Weekly (dailyRes p files).unselected hl
    refine ⟨?_, ?_⟩ <;> rw [List.eq_nil_iff_forall_not_mem] <;> intro x hx
    · have := m32 x hx
      rw [hU] at this
      simp at this
    · have := m42 x hx
      rw [hU] at this
      simp at this
  have hshort3 : ((monthlyRes p files).selected.length : Int) < p.Monthly →
      (yearlyRes p files).selected = [] := by
    intro hl
    have hU : (monthlyRes p files).unselected = [] :=
      gfp_under_cap monthGrouper p.Monthly (weeklyRes p files).unselected hl
    rw [List.eq_nil_iff_forall_not_mem]
    intro x hx
    have := m43 x hx
    rw [hU] at this
    simp at this
  -- the rerun tiers, one by one
  have g0 : groupFilesByPeriod hourGrouper p.Hourly s =
      ⟨(hourlyRes p files).selected, [],
        (dailyRes p files).selected ++
          ((weeklyRes p files).selected ++
            ((monthlyRes p files).selected ++ (yearlyRes p files).selected))⟩ := by
    refine gfp_of_partition hourGrouper p.Hourly s _ _ hsortS hkeys0 ?_ ?_
    · intro x hx y hy
      rcases List.mem_append.mp hx with h | h
      · exact hULT0 y hy x (m10 x h)
      rcases List.mem_append.mp h with h | h
      · exact hULT0 y hy x (m20 x h)
      rcases List.mem_append.mp h with h | h
      · exact hULT0 y hy x (m30 x h)
      · exact hULT0 y hy x (m40 x h)
    · rcases eq_or_lt_of_le hlen0 with he | hl
      · exact Or.inl he
      · obtain ⟨e1, e2, e3, e4⟩ := hshort0 hl
        right
        rw [e1, e2, e3, e4]
        exact ⟨rfl, hl⟩
  have hsortB0 : sortDesc
      ((dailyRes p files).selected ++
        ((weeklyRes p files).selected ++
          ((monthlyRes p files).selected ++ (yearlyRes p files).selected))) =
      (dailyRes p files).selected ++
        ((weeklyRes p files).selected ++
          ((monthlyRes p files).selected ++ (yearlyRes p files).selected)) :=
    sortDesc_eq_of_perm _ _ h1234 (List.Perm.refl _)
  have g1 : groupFilesByPeriod dayGrouper p.Daily
      ((dailyRes p files).selected ++
        ((weeklyRes p files).selected ++
          ((monthlyRes p files).selected ++ (yearlyRes p files).selected))) =
      ⟨(dailyRes p files).selected, [],
        (weeklyRes p files).selected ++
          ((monthlyRes p files).selected ++ (yearlyRes p files).selected)⟩ := by
    refine gfp_of_partition dayGrouper p.Daily _ _ _ hsortB0 hkeys1 ?_ ?_
    · intro x hx y hy
      rcases List.mem_append.mp hx with h | h
      · exact hULT1 y hy x (m21 x h)
      rcases List.mem_append.mp h with h | h
      · exact hULT1 y hy x (m31 x h)
      · exact hULT1 y hy x (m41 x h)
    · rcases eq_or_lt_of_le hlen1 with he | hl
      · exact Or.inl he
      · obtain ⟨e2, e3, e4⟩ := hshort1 hl
        right
        rw [e2, e3, e4]
        exact ⟨rfl, hl⟩
  have hsortB1 : sortDesc
      ((weeklyRes p files).selected ++
        ((monthlyRes p files).selected ++ (yearlyRes p files).selected)) =
      (weeklyRes p files).selected ++
        ((monthlyRes p files).selected ++ (yearlyRes p files).selected) :=
    sortDesc_eq_of_perm _ _ h234 (List.Perm.refl _)
  have g2 : groupFilesByPeriod weekGrouper p.Weekly
      ((weeklyRes p files).selected ++
        ((monthlyRes p files).selected ++ (yearlyRes p files).selected)) =
      ⟨(weeklyRes p files).selected, [],
        (monthlyRes p files).selected ++ (yearlyRes p files).selected⟩ := by
    refine gfp_of_partition weekGrouper p.Weekly _ _ _ hsortB1 hkeys2 ?_ ?_
    · intro x hx y hy
      rcases List.mem_append.mp hx with h | h
      · exact hULT2 y hy x (m32 x h)
      · exact hULT2 y hy x (m42 x h)
    · rcases eq_or_lt_of_le hlen2 with he | hl
      · exact Or.inl he
      · obtain ⟨e3, e4⟩ := hshort2 hl
        right
        rw [e3, e4]
        exact ⟨rfl, hl⟩
  have hsortB2 : sortDesc
      ((monthlyRes p files).selected ++ (yearlyRes p files).selected) =
      (monthlyRes p files).selected ++ (yearlyRes p files).selected :=
    sortDesc_eq_of_perm _ _ h34 (List.Perm.refl _)
  have g3 : groupFilesByPeriod monthGrouper p.Monthly
      ((monthlyRes p files).selected ++ (yearlyRes p files).selected) =
      ⟨(monthlyRes p files).selected, [], (yearlyRes p files).selected⟩ := by
    refine gfp_of_partition monthGrouper p.Monthly _ _ _ hsortB2 hkeys3 ?_ ?_
    · intro x hx y hy
      exact hULT3 y hy x (m43 x hx)
    · rcases eq_or_lt_of_le hlen3 with he | hl
      · exact Or.inl he
      · have e4 := hshort3 hl
        right
        rw [e4]
        exact ⟨rfl, hl⟩
  have hsortB3 : sortDesc (yearlyRes p files).selected =
      (yearlyRes p files).selected ++ [] := by
    rw [List.append_nil]
    exact sortDesc_eq_of_perm _ _ hn4 (List.Perm.refl _)
  have g4 : groupFilesByPeriod yearGrouper p.Yearly
      (yearlyRes p files).selected =
      ⟨(yearlyRes p files).selected, [], []⟩ := by
    have := gfp_of_partition yearGrouper p.Yearly
      (yearlyRes p files).selected (yearlyRes p files).selected [] hsortB3 hkeys4
      (fun x hx y hy => absurd hx (List.not_mem_nil x))
      (by
        rcases eq_or_lt_of_le hlen4 with he | hl
        · exact Or.inl he
        · exact Or.inr ⟨rfl, hl⟩)
    exact this
  -- assemble the rerun
  unfold Apply
  split
  · rfl
  · rw [applyDetail_toDelete]
    rw [applyDetail_yearly, applyDetail_monthly, applyDetail_weekly,
      applyDetail_daily, applyDetail_hourly]
    rw [g0]
    rw [g1]
    rw [g2]
    rw [g3]
    rw [g4]
    simp

/-- C4 witness: rerunning Apply on exactly the records the first run kept,
for the concrete policy and file list, deletes nothing. -/
theorem apply_idempotent_witness :
    cxPolicy.NonNeg ∧ (∀ f ∈ cxFiles, f.Timestamp.Valid) ∧
    (Apply cxPolicy (retainedAll cxPolicy cxFiles)).1 = [] :=
  ⟨by decide, by decide,
    apply_idempotent cxPolicy cxFiles (by decide) (by decide)
      (retainedAll cxPolicy cxFiles) (List.Perm.refl _)⟩

/-- C5 witness: a record selected by the hourly tier is absent from the
daily tier's outputs. -/
theorem monotonic_precedence_witness :
    ((∀ f ∈ cxFiles, f.Timestamp.Valid) ∧ (0 : Fin 5) < 1 ∧
      fA ∈ (stageResult cxPolicy cxFiles 0).selected) ∧
    (fA ∉ (stageResult cxPolicy cxFiles 1).toDelete ∧
      fA ∉ (stageResult cxPolicy cxFiles 1).unselected) :=
  ⟨⟨by decide, by decide, by decide⟩,
    monotonic_precedence cxPolicy cxFiles (by decide) 0 1 (by decide) fA
      (by decide)⟩

end Retention
